import Mathlib

/-!
Verification development for the `easy-extensibility` VSCode extension.

The heart of the extension is the selection-evaluation engine
(`E.internal.evaluateSelection` in `vscodejs/index.js`), a pipeline of
textual rewrites (implemented with JavaScript regular expressions) around an
indirect `eval` of the rewritten fragment, plus the command registry and its
dispatch entry point (`E.internal.executeRegisteredCommand`), and the
trigger-binding registration proxy from the extension's `activate`.

The embedding works at the character level: fragments are `List Char`, and
every regular-expression-based transformation from the source is implemented
as an explicit character scanner that mirrors the semantics of the concrete
regex used by the code (the regexes involved are simple enough that their
backtracking behaviour collapses to deterministic scans; this is argued in
the doc comment of each scanner).  The JavaScript engine itself (indirect
`eval`, the async-IIFE wrapper, `typeof`, string conversion) is an external
collaborator; it is modelled by a small, executable fragment-language
interpreter whose behaviour follows the engine contract that the source
documents in its own implementation notes ("If we use eval(\"x = 1\") then x
becomes a global variable; whereas eval(\"var x = 1\") creates a locally
scoped variable... Indirect evaluation creates globally scoped variables for
var l = r and locally scoped variables for let l = r").

All recursion is structural (over lists or an explicit fuel counter), so the
kernel can evaluate every definition on concrete inputs.
-/

/-- Fragment text is modelled as a list of characters, so that the
regex-like scanners of the source can be expressed as structural
recursions. -/
abbrev Text := List Char

/-- Convert a Lean string literal to the `Text` representation. -/
def lit (s : String) : Text := s.toList

/-- The open-brace character (written via its code point to keep string
literals free of braces). -/
def obc : Char := Char.ofNat 123

/-- The close-brace character. -/
def cbc : Char := Char.ofNat 125

/-- The single-quote character used by the destructuring rewrite when it
emits `E.internal[...]` accesses. -/
def sqc : Char := Char.ofNat 39

/-- The backslash character. -/
def bsl : Char := Char.ofNat 92

/-- Whitespace as matched by the JavaScript `\s` character class (the
characters that can actually occur in source fragments). -/
def isWs (c : Char) : Bool :=
  c = ' ' || c = '\t' || c = '\n' || c = '\r' || c = Char.ofNat 11 || c = Char.ofNat 12

/-- Word characters as matched by the JavaScript `\w` character class. -/
def isWordChar (c : Char) : Bool :=
  ('a' ≤ c && c ≤ 'z') || ('A' ≤ c && c ≤ 'Z') || ('0' ≤ c && c ≤ '9') || c = '_'

/-- Decimal digits. -/
def isDigit (c : Char) : Bool := '0' ≤ c && c ≤ '9'

/-- Characters that may appear in a JavaScript identifier (the engine model
additionally allows `$`). -/
def isIdentChar (c : Char) : Bool := isWordChar c || c = '$'

/-- Test whether `p` is a prefix of `s`. -/
def startsW : Text → Text → Bool
  | [], _ => true
  | _ :: _, [] => false
  | p :: ps, c :: cs => p = c && startsW ps cs

/-- Test whether `p` occurs as a contiguous substring of `s` (the model of
JavaScript's `String.prototype.includes`). -/
def containsSub : Text → Text → Bool
  | s, p =>
    match s with
    | [] => startsW p []
    | _ :: cs => startsW p s || containsSub cs p

/-- Remove every whitespace character (the model of
`text.replace(/\s*/g, '')` from the function-harvesting step: a global
`\s*` replace with the empty string deletes exactly the whitespace). -/
def filterNonWs (s : Text) : Text := s.filter (fun c => !isWs c)

/-- Split a text on a separator character; like JavaScript
`String.prototype.split` with a one-character separator, the result always
has one more segment than there are separators (so `""` splits to `[""]`). -/
def splitOnChar (sep : Char) : Text → List Text
  | [] => [[]]
  | c :: cs =>
    if c = sep then [] :: splitOnChar sep cs
    else
      match splitOnChar sep cs with
      | [] => [[c]]
      | seg :: rest => (c :: seg) :: rest

/-- Join a list of texts with a separator text (JavaScript
`Array.prototype.join`). -/
def joinWith (sep : Text) : List Text → Text
  | [] => []
  | [t] => t
  | t :: ts => t ++ sep ++ joinWith sep ts

/-- Fuelled global literal replacement: replace every non-overlapping
occurrence of `pat` (scanning left-to-right, not rescanning replacements),
the semantics of `String.prototype.replace` with a global regex consisting
of a string literal.  Fuel decreases on every step so the recursion is
structural. -/
def replaceAllF (pat rep : Text) : Nat → Text → Text
  | 0, s => s
  | _ + 1, [] => []
  | fuel + 1, c :: cs =>
    if pat ≠ [] && startsW pat (c :: cs) then
      rep ++ replaceAllF pat rep fuel ((c :: cs).drop pat.length)
    else
      c :: replaceAllF pat rep fuel cs

/-- Global literal replacement with enough fuel for the whole input. -/
def replaceAll (pat rep s : Text) : Text := replaceAllF pat rep (s.length + 1) s

/-- Fuelled first-occurrence literal replacement, the semantics of
`String.prototype.replace` with a string (non-regex) pattern. -/
def replaceFirstF (pat rep : Text) : Nat → Text → Text
  | 0, s => s
  | _ + 1, [] => []
  | fuel + 1, c :: cs =>
    if pat ≠ [] && startsW pat (c :: cs) then
      rep ++ (c :: cs).drop pat.length
    else
      c :: replaceFirstF pat rep fuel cs

/-- First-occurrence literal replacement with enough fuel. -/
def replaceFirst (pat rep s : Text) : Text := replaceFirstF pat rep (s.length + 1) s

/-- Named-function values as created by evaluating a `function name(params)
\x7b body \x7d` declaration.  `src` records the source slice of the
declaration, which is what `Function.prototype.toString` returns and hence
what `E.string` shows for a function. -/
structure FuncVal where
  fname : Text
  params : List Text
  body : Text
  src : Text
deriving DecidableEq, Repr

/-- Runtime JavaScript values of the fragment sublanguage.  `promise` is the
opaque pending promise produced by evaluating the async-IIFE wrapper. -/
inductive JsVal where
  | undef : JsVal
  | num (n : Int) : JsVal
  | str (s : Text) : JsVal
  | boolean (b : Bool) : JsVal
  | func (f : FuncVal) : JsVal
  | obj (fields : List (Text × JsVal)) : JsVal
  | promise : JsVal

/-- Runtime errors thrown by the engine model. -/
inductive JsErr where
  | ref (name : Text) : JsErr
  | typeErr (msg : Text) : JsErr
  | badParse : JsErr
deriving DecidableEq, Repr

/-- The JavaScript `typeof` operator on modelled values. -/
def jsTypeof : JsVal → Text
  | .undef => lit "undefined"
  | .num _ => lit "number"
  | .str _ => lit "string"
  | .boolean _ => lit "boolean"
  | .func _ => lit "function"
  | .obj _ => lit "object"
  | .promise => lit "object"

/-- JavaScript truthiness of modelled values. -/
def jsTruthy : JsVal → Bool
  | .undef => false
  | .num n => n ≠ 0
  | .str s => s ≠ []
  | .boolean b => b
  | .func _ => true
  | .obj _ => true
  | .promise => true

/-- Truthiness of an optional value (`undefined` when absent), used for the
`if (currentPrefixArgument)` tests. -/
def jsTruthyOpt : Option JsVal → Bool
  | none => false
  | some v => jsTruthy v

/-- Decimal rendering of an integer. -/
def intToText (n : Int) : Text := lit (toString n)

/-- Primitive-to-string conversion as performed by JavaScript template
interpolation (`String(x)`); used for the object branch of `E.string`
(`k + ': ' + x[k]`) and for `E.insert(\n` + result)`. -/
def jsToString : JsVal → Text
  | .undef => lit "undefined"
  | .num n => intToText n
  | .str s => s
  | .boolean b => if b then lit "true" else lit "false"
  | .func f => f.src
  | .obj _ => lit "[object Object]"
  | .promise => lit "[object Promise]"

/-- Model of `E.string` (vscodejs/index.js lines 186-195): strings pass
through, functions print their source (`x.toString()`), and other values of
`typeof 'object'` are shown as `\x7bk1: v1; k2: v2\x7d` over their own keys
(`Object.keys(x).map(k => k + ': ' + x[k]).join('; ')`); everything else is
template-interpolated.  (The source also special-cases arrays via
`JSON.stringify`; arrays are not part of the value model because no claim
produces an array result.) -/
def Estring : JsVal → Text
  | .str s => s
  | .func f => f.src
  | .obj fields =>
    obc :: (joinWith (lit "; ") (fields.map (fun kv => kv.1 ++ lit ": " ++ jsToString kv.2))) ++ [cbc]
  | .promise => [obc, cbc]
  | v => jsToString v

/-- Rendering of a thrown error by template interpolation, as in the
rejection handler `.catch(e => E.error(...))` (interpolating an `Error`
value yields `Name: message`). -/
def renderErr : JsErr → Text
  | .ref name => lit "ReferenceError: " ++ name ++ lit " is not defined"
  | .typeErr msg => lit "TypeError: " ++ msg
  | .badParse => lit "SyntaxError: invalid or unexpected token"

/-- The Shared Global Environment: the process-wide mutable namespace that
indirect `eval` reads and writes.  Modelled as an association list from
names to values. -/
abbrev Env := List (Text × JsVal)

/-- Look a name up in an association list. -/
def lookupA (x : Text) : List (Text × JsVal) → Option JsVal
  | [] => none
  | (y, v) :: rest => if y = x then some v else lookupA x rest

/-- Set a name in an association list (overwrite if present, append
otherwise); last write wins, as for properties of a JavaScript object. -/
def setA (x : Text) (v : JsVal) : List (Text × JsVal) → List (Text × JsVal)
  | [] => [(x, v)]
  | (y, w) :: rest => if y = x then (y, v) :: rest else (y, w) :: setA x v rest

/-- The Command Registry: the `commands` object mapping human-readable names
to handler values. -/
abbrev CmdRegistry := List (Text × JsVal)

/-- One entry of the user's `keybindings.json`, as written by `E.bindKey`. -/
structure KeyBinding where
  key : Text
  command : Text
  whenClause : Text
deriving DecidableEq, Repr

/-- Arguments passed to a dispatched handler: the Capability Surface `E` and
the raw `vscode` API. -/
inductive CallArg where
  | esurface : CallArg
  | vscodeApi : CallArg
deriving DecidableEq, Repr

/-- Observable effects routed through the Capability Surface (notifications,
insertions, the output channel, subprocesses, pickers, registrations and
handler invocations). -/
inductive Effect where
  | message (s : Text) : Effect
  | errorMsg (s : Text) : Effect
  | warningMsg (s : Text) : Effect
  | insertText (s : Text) : Effect
  | logLine (s : Text) : Effect
  | shellCmd (s : Text) : Effect
  | quickPick (choices : List Text) : Effect
  | vscodeRegisterCommand (name : Text) : Effect
  | keyBind (b : KeyBinding) : Effect
  | invoke (name : Text) (handler : JsVal) (args : List CallArg)
      (prefixAtCall : Option JsVal) : Effect

/-- Test for user-visible echo/notification effects (information messages). -/
def isMessage : Effect → Bool
  | .message _ => true
  | _ => false

/-- Test for text-insertion effects. -/
def isInsert : Effect → Bool
  | .insertText _ => true
  | _ => false

/-- Model of `E.internal.echoFunction` (the default echo strategy): show the
value together with its runtime type name, `E.message(E.string(x) ~ typ)`
with `typ` defaulting to `typeof x`. -/
def echoFunction (x : JsVal) (typ : Text := jsTypeof x) : Effect :=
  .message (Estring x ++ lit " ~ " ++ typ)

/-- Mutable state shared across dispatches: the Shared Global Environment,
the Command Registry, the ambient Prefix Modifier
(`E.currentPrefixArgument`, initially `undefined`), and the trigger-binding
store written by `E.bindKey`. -/
structure EvalState where
  env : Env
  commands : CmdRegistry
  currentPrefixArgument : Option JsVal
  keybindings : List KeyBinding

/-- State at extension activation: empty environment and registry, no prefix
argument (`E.currentPrefixArgument = undefined`, index.js line 69), no
recorded bindings. -/
def initState : EvalState :=
  { env := [], commands := [], currentPrefixArgument := none, keybindings := [] }

/-- Look a name up in a text-valued association list (the `identifiers`
map of the destructuring rewrite). -/
def lookupT (x : Text) : List (Text × Text) → Option Text
  | [] => none
  | (y, v) :: rest => if y = x then some v else lookupT x rest

/-- Render a natural number in decimal. -/
def natToText (n : Nat) : Text := lit (toString n)

/-- Model of the leading-asterisk removal
`text.replace(/(\n|^)\s*\*/g, '$1')` (index.js line 1164).  A match starts
at the string head (the `^` alternative) or at a newline (kept by the `$1`
group); `\s*` then runs over whitespace and the next character must be `*`.
Since `*` is not whitespace, the greedy `\s*` needs no backtracking: the
match succeeds exactly when the first non-whitespace character after the
start is `*`. -/
def starMatchTail (cs : Text) : Option Text :=
  match cs.dropWhile isWs with
  | c :: r => if c = '*' then some r else none
  | [] => none

/-- Fuelled scan for asterisk removal: after the initial position, a match
can only start at a `\n` (which the replacement keeps). -/
def stripStarsGoF : Nat → Text → Text
  | 0, s => s
  | _ + 1, [] => []
  | fuel + 1, c :: cs =>
    if c = '\n' then
      match starMatchTail cs with
      | some r => '\n' :: stripStarsGoF fuel r
      | none => '\n' :: stripStarsGoF fuel cs
    else c :: stripStarsGoF fuel cs

/-- Leading-asterisk removal.  At position 0 the alternation `(\n|^)` tries
`\n` first (handled by the scanner's newline case); otherwise the `^`
alternative matches with an empty group. -/
def stripStars : Text → Text
  | [] => []
  | c :: cs =>
    if c = '\n' then stripStarsGoF ((c :: cs).length + 1) (c :: cs)
    else
      match starMatchTail (c :: cs) with
      | some r => stripStarsGoF (r.length + 1) r
      | none => stripStarsGoF ((c :: cs).length + 1) (c :: cs)

/-- Model of the four `console.*` redirections (index.js lines 1176-1179):
global literal replaces routing `console.log/error/warn/assert` to the
`E.internal.console` shims. -/
def consoleRedirect (s : Text) : Text :=
  replaceAll (lit "console.assert") (lit "E.internal.console.assert")
    (replaceAll (lit "console.warn") (lit "E.internal.console.warn")
      (replaceAll (lit "console.error") (lit "E.internal.console.error")
        (replaceAll (lit "console.log") (lit "E.internal.console.log") s)))

/-- Model of `text.match(/^(\s*)var([^=]*)=/)`, returning capture group 2
(index.js line 1191).  `\s*` runs over leading whitespace (no backtracking:
`v` is not whitespace), then the literal `var`, then `[^=]*` collects the
characters before the first `=`, which must exist. -/
def matchVarLhs (s : Text) : Option Text :=
  let t := s.dropWhile isWs
  if startsW (lit "var") t then
    let r := t.drop 3
    let nm := r.takeWhile (fun c => c ≠ '=')
    if r.drop nm.length ≠ [] then some nm else none
  else none

/-- The `(\s|async)*` loop of the function-declaration pattern: greedily
consume whitespace characters or the literal `async`.  (The greedy loop is
deterministic here: neither alternative can begin with `f`, so consuming
less could never make the following literal `function` match.) -/
def dropWsAsyncF : Nat → Text → Text
  | 0, s => s
  | _ + 1, [] => []
  | fuel + 1, c :: cs =>
    if isWs c then dropWsAsyncF fuel cs
    else if startsW (lit "async") (c :: cs) then dropWsAsyncF fuel ((c :: cs).drop 5)
    else c :: cs

/-- Model of `text.match(/^(\s|async)*function(\s*)(\w*)/)`, returning
capture group 3, the declared function name (index.js line 1191). -/
def matchFuncName (s : Text) : Option Text :=
  let t := dropWsAsyncF (s.length + 1) s
  if startsW (lit "function") t then
    let r := (t.drop 8).dropWhile isWs
    some (r.takeWhile isWordChar)
  else none

/-- JavaScript `||` on optional match groups: an empty string is falsy, so
`(m1||[])[2] || (m2||[])[3]` yields the first non-empty group (and a final
empty-string result is itself falsy everywhere downstream, so it is
normalised to `none`). -/
def jsOrText : Option Text → Option Text → Option Text
  | some t, some u => if t ≠ [] then some t else if u ≠ [] then some u else none
  | some t, none => if t ≠ [] then some t else none
  | none, some u => if u ≠ [] then some u else none
  | none, none => none

/-- The echoable left-hand side of a fragment (index.js lines 1190-1191):
the variable of a leading `var` assignment, or a declared function name. -/
def echoableLeftSideOf (s : Text) : Option Text :=
  jsOrText (matchVarLhs s) (matchFuncName s)

/-- The test `text.match(/^\s*let/)` guarding the locality warning
(index.js line 1193). -/
def letWarnTest (s : Text) : Bool :=
  startsW (lit "let") (s.dropWhile isWs)

/-- The async-IIFE wrapper (index.js line 1200):
`(async () => \x7b\n\n` + text + `\n\n\x7d)()` + maybeEcho + the rejection
handler, where maybeEcho re-echoes the echoable left-hand side once the
promise resolves. -/
def awaitWrap (bodyT : Text) (maybeEchoName : Option Text) : Text :=
  lit "(async () => " ++ [obc] ++ lit "\n\n" ++ bodyT ++ lit "\n\n" ++ [cbc] ++ lit ")()"
    ++ (match maybeEchoName with
        | some nm => lit ".then(_ => E.internal.echoFunction(" ++ nm ++ lit "))"
        | none => [])
    ++ lit ".catch(e => E.error(`${e}`))"

/-- Attempt the destructuring pattern
`(var)\s*({|\[)([^;]*)(}|]) = [^;\n]*` at the head of `cs` (index.js line
1205), returning the matched substring and the remaining text.  The greedy
`[^;]*` backtracks to the largest split whose next character is a closing
bracket followed by a literal `\x20=\x20`. -/
def tryDestructAt (cs : Text) : Option (Text × Text) :=
  if startsW (lit "var") cs then
    let r := cs.drop 3
    let wsn := (r.takeWhile isWs).length
    match r.drop wsn with
    | b :: r3 =>
      if b = obc || b = '[' then
        let limit := (r3.takeWhile (fun c => c ≠ ';')).length
        let ks := (List.range limit).filter (fun k =>
          (match r3.get? k with
           | some c => c = cbc || c = ']'
           | none => false) && startsW (lit " = ") (r3.drop (k + 1)))
        match ks.foldl (fun _ k => some k) none with
        | some k =>
          let tailm := ((r3.drop (k + 4)).takeWhile (fun c => c ≠ ';' && c ≠ '\n')).length
          let consumed := 3 + wsn + 1 + (k + 4) + tailm
          some (cs.take consumed, cs.drop consumed)
        | none => none
      else none
    | [] => none
  else none

/-- The global scan collecting all destructuring matches (`text.match(...)`
with the `g` flag): try at each position, jump past a successful match. -/
def matchDestructsF : Nat → Text → List Text
  | 0, _ => []
  | _ + 1, [] => []
  | fuel + 1, c :: cs =>
    match tryDestructAt (c :: cs) with
    | some (m, rest) => m :: matchDestructsF fuel rest
    | none => matchDestructsF fuel cs

/-- All destructuring matches of a text. -/
def matchDestructs (s : Text) : List Text := matchDestructsF (s.length + 1) s

/-- Attempt the per-match pattern `(var)\s*({|\[)(.*)(}|\]) = (.*)` at the
head of `cs` (index.js line 1212), returning the bracket character, capture
group 3 (the destructured names) and capture group 5 (the right-hand
side).  `.` does not match newlines; the greedy `(.*)` again selects the
largest group-3 split followed by a closing bracket and `\x20=\x20`. -/
def tryInnerDestructAt (cs : Text) : Option (Char × Text × Text) :=
  if startsW (lit "var") cs then
    let r := cs.drop 3
    let wsn := (r.takeWhile isWs).length
    match r.drop wsn with
    | b :: r3 =>
      if b = obc || b = '[' then
        let limit := (r3.takeWhile (fun c => c ≠ '\n')).length
        let ks := (List.range limit).filter (fun k =>
          (match r3.get? k with
           | some c => c = cbc || c = ']'
           | none => false) && startsW (lit " = ") (r3.drop (k + 1)))
        match ks.foldl (fun _ k => some k) none with
        | some k =>
          some (b, r3.take k, (r3.drop (k + 4)).takeWhile (fun c => c ≠ '\n'))
        | none => none
      else none
    | [] => none
  else none

/-- Search for the per-match pattern anywhere in the text (`String.match`
without `^` scans forward until the pattern matches). -/
def innerDestructF : Nat → Text → Option (Char × Text × Text)
  | 0, _ => none
  | _ + 1, [] => none
  | fuel + 1, c :: cs =>
    match tryInnerDestructAt (c :: cs) with
    | some r => some r
    | none => innerDestructF fuel cs

/-- First match of the per-destructuring pattern within one `local`. -/
def innerDestruct (s : Text) : Option (Char × Text × Text) :=
  innerDestructF (s.length + 1) s

/-- Fresh internal names for right-hand sides: the model of
`require('crypto').randomUUID()` as an injective deterministic supply. -/
def uuidName (i : Nat) : Text := lit "uuid-" ++ natToText i

/-- State threaded through the destructuring rewrite: the text being
rewritten, the `identifiers` map naming each distinct right-hand side, the
`declared` flags recording which internal names have already been declared,
and the counter feeding the fresh-name supply. -/
structure DestructState where
  text : Text
  identifiers : List (Text × Text)
  declared : List Text
  counter : Nat

/-- The `declare(obj)` closure (index.js lines 1214-1218): emit
`E.internal['uuid'] = obj\n` the first time a right-hand side is seen,
and the empty string afterwards. -/
def declareTemp (u objT : Text) (declared : List Text) : Text × List Text :=
  if objT ∈ declared then ([], declared)
  else
    (lit "E.internal[" ++ [sqc] ++ u ++ [sqc] ++ lit "] = " ++ objT ++ [Char.ofNat 10],
     objT :: declared)

/-- Build the replacement piece for one destructured name (index.js lines
1222-1235): object form accesses a property of the shared temporary, array
form accesses an index (or a tail slice for a rest parameter); each piece
is prefixed by `declare(obj)` and a space. -/
def destructPiece (u objT : Text) (isObj : Bool) (declared : List Text)
    (name : Text) (idx : Nat) : Text × List Text :=
  let (declT, declared') := declareTemp u objT declared
  if isObj then
    (declT ++ lit " " ++ name ++ lit " = E.internal[" ++ [sqc] ++ u ++ [sqc] ++ lit "]." ++ name,
     declared')
  else
    let restParam := containsSub name (lit "...")
    let suffix :=
      if restParam then lit ".slice(" ++ natToText idx ++ lit ")"
      else lit "[" ++ natToText idx ++ lit "]"
    let name' := if restParam then replaceFirst (lit "...") [] name else name
    (declT ++ lit " " ++ name' ++ lit " = E.internal[" ++ [sqc] ++ u ++ [sqc] ++ lit "]" ++ suffix,
     declared')

/-- Map `destructPiece` over the destructured names, threading the
`declared` flags (the source calls `declare(obj)` once per name inside the
`.map`, so only the first name of the first statement for a given
right-hand side carries the declaration). -/
def destructPieces (u objT : Text) (isObj : Bool) :
    List Text → Nat → List Text → (List Text × List Text)
  | [], _, declared => ([], declared)
  | name :: rest, idx, declared =>
    let (piece, declared') := destructPiece u objT isObj declared name idx
    let (pieces, declared'') := destructPieces u objT isObj rest (idx + 1) declared'
    (piece :: pieces, declared'')

/-- Process one matched `local` (the body of the `lets?.forEach` at index.js
lines 1210-1238): re-match it, allocate a fresh internal name for an unseen
right-hand side, rewrite every destructured name as an access into the
temporary, and replace the first occurrence of `local` in the text by the
newline-joined pieces.  A `local` whose re-match fails would make the
source throw (destructuring `null`), modelled as an error. -/
def destructStep (st : DestructState) (localT : Text) : Except JsErr DestructState :=
  match innerDestruct localT with
  | none => .error (.typeErr (lit "object null is not iterable"))
  | some (b, varsRaw, objT) =>
    let known := (lookupT objT st.identifiers).isSome
    let identifiers :=
      if known then st.identifiers else st.identifiers ++ [(objT, uuidName st.counter)]
    let counter := if known then st.counter else st.counter + 1
    let u := (lookupT objT identifiers).getD []
    let vars := splitOnChar ',' (filterNonWs varsRaw)
    let (pieces, declared') := destructPieces u objT (b = obc) vars 0 st.declared
    let replacement := joinWith [Char.ofNat 10] pieces
    .ok { text := replaceFirst localT replacement st.text,
          identifiers := identifiers, declared := declared', counter := counter }

/-- Attempt the `var`-stripping pattern `(var)((\w|\s|,|\[|\])*)(=)` at the
head of `cs` (index.js line 1240): `var` followed by a run of
word/whitespace/comma/bracket characters and then `=`; the replacement
`$2\x20=\x20` keeps the run.  (`=` is not in the run's character class, so
the greedy run is deterministic.) -/
def tryVarEqAt (cs : Text) : Option (Text × Text) :=
  if startsW (lit "var") cs then
    let r := cs.drop 3
    let run := r.takeWhile (fun c => isWordChar c || isWs c || c = ',' || c = '[' || c = ']')
    match r.drop run.length with
    | '=' :: rest => some (run ++ lit " = ", rest)
    | _ => none
  else none

/-- Global scan applying the `var`-stripping replacement. -/
def varStripF : Nat → Text → Text
  | 0, s => s
  | _ + 1, [] => []
  | fuel + 1, c :: cs =>
    match tryVarEqAt (c :: cs) with
    | some (rep, rest) => rep ++ varStripF fuel rest
    | none => c :: varStripF fuel cs

/-- Strip remaining `var` qualifiers before an assignment (so the
assignments inside the async wrapper create globals). -/
def varStrip (s : Text) : Text := varStripF (s.length + 1) s

mutual
/-- Expressions of the fragment sublanguage that the engine model
evaluates (numbers, identifiers, `+`/`*`, object literals, `await`). -/
inductive Expr where
  | num (n : Nat) : Expr
  | ident (x : Text) : Expr
  | add (a b : Expr) : Expr
  | mul (a b : Expr) : Expr
  | objLit (fields : ObjFields) : Expr
  | awaitE (e : Expr) : Expr
/-- Object-literal fields (a mutually inductive list, so that recursion
over expressions stays structural). -/
inductive ObjFields where
  | nil : ObjFields
  | cons (k : Text) (v : Expr) (rest : ObjFields) : ObjFields
end

/-- Statements of the fragment sublanguage: the declaration forms whose
scoping the rewriter manipulates, assignments, named function declarations
and expression statements. -/
inductive Stmt where
  | varDecl (x : Text) (e : Expr) : Stmt
  | letDecl (x : Text) (e : Expr) : Stmt
  | constDecl (x : Text) (e : Expr) : Stmt
  | assign (x : Text) (e : Expr) : Stmt
  | funcDecl (f : FuncVal) : Stmt
  | exprStmt (e : Expr) : Stmt

/-- Trim surrounding whitespace (used for parameter names). -/
def trimT (s : Text) : Text :=
  ((s.dropWhile isWs).reverse.dropWhile isWs).reverse

/-- Match a keyword at the head of the text: the literal must not be
followed by a further identifier character (so `variable` is an identifier,
not the keyword `var`). -/
def kwAt (kw s : Text) : Option Text :=
  if startsW kw s then
    let r := s.drop kw.length
    match r with
    | c :: _ => if isIdentChar c then none else some r
    | [] => some r
  else none

/-- Consume a balanced-brace function body: characters up to the matching
close brace at depth 0, returning the body and the rest after the brace. -/
def takeBalanced : Nat → Text → Option (Text × Text)
  | _, [] => none
  | depth, c :: cs =>
    if c = cbc then
      match depth with
      | 0 => some ([], cs)
      | d + 1 => (takeBalanced d cs).map (fun p => (c :: p.1, p.2))
    else if c = obc then (takeBalanced (depth + 1) cs).map (fun p => (c :: p.1, p.2))
    else (takeBalanced depth cs).map (fun p => (c :: p.1, p.2))

/-- Numeric value of a run of decimal digits. -/
def digitsToNat (s : Text) : Nat :=
  s.foldl (fun acc c => acc * 10 + (c.toNat - '0'.toNat)) 0

mutual
/-- Parse an additive expression (fuelled recursive descent). -/
def parseExprF : Nat → Text → Option (Expr × Text)
  | 0, _ => none
  | fuel + 1, s =>
    match parseTermF fuel s with
    | some (e, rest) => parseAddTailF fuel e rest
    | none => none
/-- Parse a trailing `+ term` chain. -/
def parseAddTailF : Nat → Expr → Text → Option (Expr × Text)
  | 0, _, _ => none
  | fuel + 1, acc, s =>
    match s.dropWhile isWs with
    | '+' :: r =>
      match parseTermF fuel r with
      | some (e2, rest) => parseAddTailF fuel (.add acc e2) rest
      | none => none
    | _ => some (acc, s)
/-- Parse a multiplicative expression. -/
def parseTermF : Nat → Text → Option (Expr × Text)
  | 0, _ => none
  | fuel + 1, s =>
    match parseFactorF fuel s with
    | some (e, rest) => parseMulTailF fuel e rest
    | none => none
/-- Parse a trailing `* factor` chain. -/
def parseMulTailF : Nat → Expr → Text → Option (Expr × Text)
  | 0, _, _ => none
  | fuel + 1, acc, s =>
    match s.dropWhile isWs with
    | '*' :: r =>
      match parseFactorF fuel r with
      | some (e2, rest) => parseMulTailF fuel (.mul acc e2) rest
      | none => none
    | _ => some (acc, s)
/-- Parse an atomic expression: parenthesised expression, object literal,
number, `await`-prefixed factor, or identifier. -/
def parseFactorF : Nat → Text → Option (Expr × Text)
  | 0, _ => none
  | fuel + 1, s =>
    match s.dropWhile isWs with
    | [] => none
    | c :: r =>
      if c = '(' then
        match parseExprF fuel r with
        | some (e, rest) =>
          match rest.dropWhile isWs with
          | ')' :: r2 => some (e, r2)
          | _ => none
        | none => none
      else if c = obc then
        (parseObjFieldsF fuel r).map (fun p => (Expr.objLit p.1, p.2))
      else if isDigit c then
        let t := c :: r
        let digits := t.takeWhile isDigit
        some (.num (digitsToNat digits), t.drop digits.length)
      else if isIdentChar c then
        let t := c :: r
        let w := t.takeWhile isIdentChar
        if w = lit "await" then
          (parseFactorF fuel (t.drop 5)).map (fun p => (Expr.awaitE p.1, p.2))
        else some (.ident w, t.drop w.length)
      else none
/-- Parse the fields of an object literal after the opening brace. -/
def parseObjFieldsF : Nat → Text → Option (ObjFields × Text)
  | 0, _ => none
  | fuel + 1, s =>
    match s.dropWhile isWs with
    | [] => none
    | c :: r =>
      if c = cbc then some (.nil, r)
      else
        let t := c :: r
        let k := t.takeWhile isIdentChar
        if k = [] then none
        else
          match (t.drop k.length).dropWhile isWs with
          | ':' :: r2 =>
            match parseExprF fuel r2 with
            | some (v, rest) =>
              match rest.dropWhile isWs with
              | ',' :: r3 => (parseObjFieldsF fuel r3).map (fun p => (ObjFields.cons k v p.1, p.2))
              | c2 :: r3 =>
                if c2 = cbc then some (.cons k v .nil, r3) else none
              | [] => none
            | none => none
          | _ => none
end

/-- Parse a `name = expr` tail after a declaration keyword. -/
def parseDeclTail (fuel : Nat) (mk : Text → Expr → Stmt) (r : Text) :
    Option (Stmt × Text) :=
  let t := r.dropWhile isWs
  let nm := t.takeWhile isIdentChar
  if nm = [] then none
  else
    match (t.drop nm.length).dropWhile isWs with
    | '=' :: r2 => (parseExprF fuel r2).map (fun p => (mk nm p.1, p.2))
    | _ => none

/-- Parse one statement (the text is assumed separator-trimmed). -/
def parseStmtF (fuel : Nat) (s : Text) : Option (Stmt × Text) :=
  match kwAt (lit "var") s with
  | some r => parseDeclTail fuel .varDecl r
  | none =>
  match kwAt (lit "let") s with
  | some r => parseDeclTail fuel .letDecl r
  | none =>
  match kwAt (lit "const") s with
  | some r => parseDeclTail fuel .constDecl r
  | none =>
  match kwAt (lit "function") s with
  | some r =>
    let t := r.dropWhile isWs
    let nm := t.takeWhile isIdentChar
    if nm = [] then none
    else
      match (t.drop nm.length).dropWhile isWs with
      | '(' :: r2 =>
        let paramsRaw := r2.takeWhile (fun c => c ≠ ')')
        match r2.drop paramsRaw.length with
        | ')' :: r3 =>
          match r3.dropWhile isWs with
          | c :: r4 =>
            if c = obc then
              match takeBalanced 0 r4 with
              | some (body, rest) =>
                let src := s.take (s.length - rest.length)
                let params := (splitOnChar ',' paramsRaw).map trimT
                some (.funcDecl ⟨nm, params, body, src⟩, rest)
              | none => none
            else none
          | [] => none
        | _ => none
      | _ => none
  | none =>
    let w := s.takeWhile isIdentChar
    if w ≠ [] then
      match (s.drop w.length).dropWhile isWs with
      | '=' :: '=' :: _ => (parseExprF fuel s).map (fun p => (Stmt.exprStmt p.1, p.2))
      | '=' :: r2 => (parseExprF fuel r2).map (fun p => (Stmt.assign w p.1, p.2))
      | _ => (parseExprF fuel s).map (fun p => (Stmt.exprStmt p.1, p.2))
    else (parseExprF fuel s).map (fun p => (Stmt.exprStmt p.1, p.2))

/-- Statement separators: whitespace and semicolons. -/
def isSep (c : Char) : Bool := isWs c || c = ';'

/-- Parse a whole fragment as a separator-delimited statement list. -/
def parseStmtsF : Nat → Text → Option (List Stmt)
  | 0, _ => none
  | fuel + 1, s =>
    let t := s.dropWhile isSep
    if t = [] then some []
    else
      match parseStmtF fuel t with
      | some (st, rest) =>
        match rest with
        | [] => some [st]
        | c :: _ =>
          if isSep c then (parseStmtsF fuel rest).map (st :: ·) else none
      | none => none

/-- Parse a fragment with enough fuel (each input character can account
for a bounded number of grammar levels). -/
def parseFragment (s : Text) : Option (List Stmt) := parseStmtsF (5 * s.length + 10) s

mutual
/-- Evaluate an expression against an environment (locals shadowing the
Shared Global Environment are already appended in front).  `await` is
transparent: the model resolves immediately-available values. -/
def evalExpr (env : Env) : Expr → Except JsErr JsVal
  | .num n => .ok (.num (Int.ofNat n))
  | .ident x =>
    match lookupA x env with
    | some v => .ok v
    | none => .error (.ref x)
  | .add a b =>
    match evalExpr env a with
    | .error e => .error e
    | .ok va =>
      match evalExpr env b with
      | .error e => .error e
      | .ok vb =>
        match va, vb with
        | .num m, .num n => .ok (.num (m + n))
        | _, _ => .error (.typeErr (lit "unsupported operands"))
  | .mul a b =>
    match evalExpr env a with
    | .error e => .error e
    | .ok va =>
      match evalExpr env b with
      | .error e => .error e
      | .ok vb =>
        match va, vb with
        | .num m, .num n => .ok (.num (m * n))
        | _, _ => .error (.typeErr (lit "unsupported operands"))
  | .objLit fields =>
    match evalObjFields env fields with
    | .ok fs => .ok (.obj fs)
    | .error e => .error e
  | .awaitE e => evalExpr env e
/-- Evaluate object-literal fields left to right. -/
def evalObjFields (env : Env) : ObjFields → Except JsErr (List (Text × JsVal))
  | .nil => .ok []
  | .cons k v rest =>
    match evalExpr env v with
    | .error e => .error e
    | .ok w =>
      match evalObjFields env rest with
      | .ok fs => .ok ((k, w) :: fs)
      | .error e => .error e
end

/-- Execute one statement.  `varLocal` selects the scoping contract of the
engine: under indirect `eval` at top level, `var` and function declarations
create global bindings (the contract the source documents for
`(1, eval)`), while inside the async-IIFE wrapper they are function-local.
`let`/`const` bindings are always local to the evaluation.  Assignments
write through to the innermost scope holding the name, creating a global
otherwise; statement completion values follow `eval` semantics
(declarations leave the previous completion value in place). -/
def runStmt (varLocal : Bool) (locals genv : Env) (lastV : JsVal) :
    Stmt → Except JsErr (Env × Env × JsVal)
  | .varDecl x e =>
    match evalExpr (locals ++ genv) e with
    | .error err => .error err
    | .ok v =>
      if varLocal then .ok (setA x v locals, genv, lastV)
      else .ok (locals, setA x v genv, lastV)
  | .letDecl x e =>
    match evalExpr (locals ++ genv) e with
    | .error err => .error err
    | .ok v => .ok (setA x v locals, genv, lastV)
  | .constDecl x e =>
    match evalExpr (locals ++ genv) e with
    | .error err => .error err
    | .ok v => .ok (setA x v locals, genv, lastV)
  | .assign x e =>
    match evalExpr (locals ++ genv) e with
    | .error err => .error err
    | .ok v =>
      if (lookupA x locals).isSome then .ok (setA x v locals, genv, v)
      else .ok (locals, setA x v genv, v)
  | .funcDecl f =>
    if varLocal then .ok (setA f.fname (.func f) locals, genv, lastV)
    else .ok (locals, setA f.fname (.func f) genv, lastV)
  | .exprStmt e =>
    match evalExpr (locals ++ genv) e with
    | .error err => .error err
    | .ok v => .ok (locals, genv, v)

/-- Execute a statement list, keeping the environments reached when an
error is thrown (side effects before a throw persist). -/
def runStmtsGo (varLocal : Bool) :
    List Stmt → Env → Env → JsVal → Env × Env × Except JsErr JsVal
  | [], locals, genv, lastV => (locals, genv, .ok lastV)
  | st :: rest, locals, genv, lastV =>
    match runStmt varLocal locals genv lastV st with
    | .ok (l', g', v') => runStmtsGo varLocal rest l' g' v'
    | .error e => (locals, genv, .error e)

/-- Suffix test. -/
def endsW (suf s : Text) : Bool :=
  decide (suf.length ≤ s.length) && s.drop (s.length - suf.length) = suf

/-- Split at the first occurrence of a marker substring. -/
def splitFirstSub (marker : Text) : Text → Option (Text × Text)
  | [] => none
  | c :: cs =>
    if marker ≠ [] && startsW marker (c :: cs) then some ([], (c :: cs).drop marker.length)
    else (splitFirstSub marker cs).map (fun p => (c :: p.1, p.2))

/-- Recognise the exact async-IIFE template produced by the rewriter
(`(async () => \x7b\n\n` body `\n\n\x7d)()` maybe-then `.catch(...)`),
recovering the wrapped body and the optional echoed left-hand side.  This
is the engine model's knowledge of how the host evaluates that template. -/
def recognizeAsync (s : Text) : Option (Text × Option Text) :=
  let preT := lit "(async () => " ++ [obc] ++ lit "\n\n"
  let catchT := lit ".catch(e => E.error(`${e}`))"
  let closeT := lit "\n\n" ++ [cbc] ++ lit ")()"
  if startsW preT s then
    let rest := s.drop preT.length
    if endsW catchT rest then
      let mid := rest.take (rest.length - catchT.length)
      if endsW closeT mid then some (mid.take (mid.length - closeT.length), none)
      else
        let marker := closeT ++ lit ".then(_ => E.internal.echoFunction("
        match splitFirstSub marker mid with
        | some (body, after) =>
          if endsW (lit "))") after then
            some (body, some (after.take (after.length - 2)))
          else none
        | none => none
    else none
  else none

/-- Parse a lone expression (used for the `.then` echo argument and for the
parenthesised echo re-evaluation). -/
def parseExprTop (s : Text) : Option Expr :=
  match parseExprF (5 * s.length + 10) s with
  | some (e, rest) => if rest.dropWhile isWs = [] then some e else none
  | none => none

/-- The engine model of `(1, eval)(text)`: recognise the async template (in
which case the body runs with function-local `var` scoping, rejections are
routed to `E.error` by the appended catch handler, a `.then` echo fires on
success, and the overall value is a pending promise), otherwise parse and
run the fragment under indirect-eval scoping.  Returns the updated global
environment, the completion value or thrown error, and the effects produced
by the template's handlers. -/
def jsEval (genv : Env) (t : Text) : Env × Except JsErr JsVal × List Effect :=
  match recognizeAsync t with
  | some (body, echoNm) =>
    match parseFragment body with
    | none => (genv, .error .badParse, [])
    | some stmts =>
      let (_, g', res) := runStmtsGo true stmts [] genv .undef
      match res with
      | .error e => (g', .ok .promise, [.errorMsg (renderErr e)])
      | .ok _ =>
        match echoNm with
        | some nm =>
          match parseExprTop nm with
          | some e =>
            match evalExpr g' e with
            | .ok v => (g', .ok .promise, [echoFunction v])
            | .error err => (g', .ok .promise, [.errorMsg (renderErr err)])
          | none => (g', .ok .promise, [.errorMsg (renderErr .badParse)])
        | none => (g', .ok .promise, [])
  | none =>
    match parseFragment t with
    | none => (genv, .error .badParse, [])
    | some stmts =>
      let (_, g', res) := runStmtsGo false stmts [] genv .undef
      (g', res, [])

/-- Matches of `/function\s*[^\)]*/g` over the whitespace-stripped text
(the function-harvesting scan, index.js lines 1252-1254): on
whitespace-free text the `\s*` is vacuous, so a match is the literal
`function` followed by the maximal run of non-`)` characters. -/
def harvestMatchesF : Nat → Text → List Text
  | 0, _ => []
  | _ + 1, [] => []
  | fuel + 1, c :: cs =>
    if startsW (lit "function") (c :: cs) then
      let m := lit "function" ++ ((c :: cs).drop 8).takeWhile (fun x => x ≠ ')')
      m :: harvestMatchesF fuel ((c :: cs).drop m.length)
    else harvestMatchesF fuel cs

/-- Process one harvest match (the `forEach` body, index.js lines
1255-1258): split out the argument names after the first `(`, extract the
declared name, and when the arguments include the Capability-Surface name
`E`, bind the command name to `(1, eval)(name)` in the registry. -/
def harvestStep (genv : Env) (cmds : CmdRegistry) (x : Text) :
    Except JsErr CmdRegistry :=
  let args : Option (List Text) := ((splitOnChar '(' x).get? 1).map (splitOnChar ',')
  let name := (x.drop 8).takeWhile (fun c => c ≠ '(')
  match args with
  | some argl =>
    if (lit "E") ∈ argl then
      let (_, res, _) := jsEval genv name
      match res with
      | .ok v => .ok (setA name v cmds)
      | .error e => .error e
    else .ok cmds
  | none => .ok cmds

/-- The function-harvesting pass: scan the rewritten text for function
declarations and promote those whose parameters include `E` into the
Command Registry (re-declaration overwrites). -/
def harvestFunctions (t : Text) (genv : Env) (cmds : CmdRegistry) :
    Except JsErr CmdRegistry :=
  (harvestMatchesF ((filterNonWs t).length + 1) (filterNonWs t)).foldlM (harvestStep genv) cmds

/-- Result-routing policy of the evaluator (index.js lines 1261-1281), in
source order: a truthy prefix argument inserts the stringified result on a
new line; the echoable left-hand side is logged; await fragments return
silently (their wrapper echoes on resolution); an echoable left-hand side
is re-evaluated in parentheses and echoed; an `undefined` result or one
stringifying to `\x7b\x7d` is suppressed; otherwise the raw result is
echoed with its runtime type. -/
def routeResult (currentPrefixArgument : Option JsVal) (textR : Text)
    (echoable : Option Text) (result : JsVal) (genv : Env) :
    List Effect × Option JsErr :=
  if jsTruthyOpt currentPrefixArgument then
    ([.insertText ([Char.ofNat 10] ++ jsToString result)], none)
  else
    let logFx := Effect.logLine (match echoable with | some t => t | none => lit "undefined")
    if containsSub textR (lit "await") then ([logFx], none)
    else
      match echoable with
      | some nm =>
        let (_, res, _) := jsEval genv (lit "(" ++ nm ++ lit ")")
        match res with
        | .ok v => ([logFx, echoFunction v], none)
        | .error e => ([logFx], some e)
      | none =>
        match result with
        | .undef => ([logFx], none)
        | r =>
          if Estring r = [obc, cbc] then ([logFx], none)
          else ([logFx, echoFunction r], none)

/-- The opening banner written to the output channel (index.js line 1184);
`now` is the promise returned by `E.shell`, so interpolating it prints
`[object Promise]`. -/
def bannerIn : Text :=
  lit "\n\n[" ++ jsToString .promise ++ lit "]" ++ List.replicate 70 '<' ++ lit "\n"

/-- The closing banner (index.js line 1249). -/
def bannerOut : Text := lit "\n" ++ List.replicate 80 '>' ++ lit "\n"

/-- The locality warning logged for fragments starting with `let`
(index.js lines 1194-1196). -/
def letWarnLines : List Effect :=
  [.logLine (lit "// “let” clauses declare local variables whose life ends when CMD+E is done;\n"),
   .logLine (lit "// i.e., you wont be able to use this variable in your next CMD+E press.\n"),
   .logLine (lit "// Consider using “var” if you really want a global variable.\n\n")]

/-- The soft diagnostic for async fragments with no explicit `E.message`
(index.js line 1203). -/
def asyncHintLine : Text :=
  lit "// Async operation encountered; consider using “E.message” to see results.\n"

/-- Outcome of the rewrite stage: the text to hand to the evaluator, the
echoable left-hand side, the effects produced so far (subprocess calls and
output-channel lines), and the error thrown if the destructuring rewrite
crashed. -/
structure RewriteOut where
  text : Text
  echoable : Option Text
  fx : List Effect
  failed : Option JsErr

/-- The Source Rewriter (index.js lines 1160-1242): strip leading
asterisks, redirect `console.*`, record the echoable left-hand side, warn
about `let`, and — only when the fragment contains the `await` marker —
wrap it in the async IIFE, rewrite `var` destructurings through shared
temporaries, and strip remaining `var` qualifiers; finally log the
rewritten text. -/
def rewriteSelection (rawText : Text) : RewriteOut :=
  let t2 := consoleRedirect (stripStars rawText)
  let fx0 : List Effect :=
    [.shellCmd (lit "npm root -g"), .shellCmd (lit "date +%H:%M:%S"), .logLine bannerIn]
  let echoable := echoableLeftSideOf t2
  let fx1 := fx0 ++ (if letWarnTest t2 then letWarnLines else [])
  if containsSub t2 (lit "await") then
    let t3 := awaitWrap t2 echoable
    let fx2 := fx1 ++
      (if containsSub t3 (lit "E.message") then [] else [.logLine asyncHintLine])
    match (matchDestructs t3).foldlM destructStep ⟨t3, [], [], 0⟩ with
    | .ok dst =>
      let t4 := varStrip dst.text
      { text := t4, echoable := echoable, fx := fx2 ++ [.logLine t4], failed := none }
    | .error e =>
      { text := t3, echoable := echoable, fx := fx2, failed := some e }
  else
    { text := t2, echoable := echoable, fx := fx1 ++ [.logLine t2], failed := none }

/-- Outcome of a dispatch: the new shared state, the effects routed through
the Capability Surface, and the exception (if any) that escaped the
operation uncaught. -/
structure EvalOutcome where
  state : EvalState
  effects : List Effect
  thrown : Option JsErr

/-- The selection evaluator `E.internal.evaluateSelection(commands)`
(index.js lines 1154-1282): capture requires an active editor; rewrite the
captured text; evaluate it with `(1, eval)`; log the result; harvest
function declarations into the Command Registry; then route the result.  A
synchronous throw from any of these steps escapes the handler (recorded in
`thrown`); the state keeps the mutations made before the throw. -/
def evaluateSelection (st : EvalState) (currentPrefixArgument : Option JsVal)
    (editorActive : Bool) (rawText : Text) : EvalOutcome :=
  if !editorActive then ⟨st, [], none⟩
  else
    let rw := rewriteSelection rawText
    match rw.failed with
    | some e => ⟨st, rw.fx, some e⟩
    | none =>
      let (g', res, evalFx) := jsEval st.env rw.text
      let st1 := { st with env := g' }
      match res with
      | .error e => ⟨st1, rw.fx ++ evalFx, some e⟩
      | .ok result =>
        let fx2 := rw.fx ++ evalFx ++ [.logLine bannerOut, .logLine (Estring result)]
        match harvestFunctions rw.text g' st.commands with
        | .error e => ⟨st1, fx2, some e⟩
        | .ok cmds' =>
          let st2 := { st1 with commands := cmds' }
          let (rfx, thrown) := routeResult currentPrefixArgument rw.text rw.echoable result g'
          ⟨st2, fx2 ++ rfx, thrown⟩

/-- The dispatch entry point `E.internal.executeRegisteredCommand(commands)`
(index.js lines 1009-1021): set the Prefix Modifier, show the quick-pick
over the registry's keys, and on a selection announce and invoke the
handler with `(E, vscode)`; the `finally` clause resets the Prefix Modifier
to `undefined` on every path (no selection, normal completion, or a throw
from the handler, whose opaque behaviour is modelled by `handlerThrows`). -/
def executeRegisteredCommand (st : EvalState) (currentPrefixArgument : Option JsVal)
    (userPick : Option Text) (handlerThrows : Bool) : EvalOutcome :=
  let st1 := { st with currentPrefixArgument := currentPrefixArgument }
  let pickFx := Effect.quickPick (st1.commands.map Prod.fst)
  let (fx, thrown) :=
    match userPick with
    | none => ([pickFx], (none : Option JsErr))
    | some name =>
      let msg := Effect.message (lit "Executing “" ++ name ++ lit "”...")
      match lookupA name st1.commands with
      | some h =>
        let inv := Effect.invoke name h [.esurface, .vscodeApi] st1.currentPrefixArgument
        ([pickFx, msg, inv],
         if handlerThrows then some (.typeErr (lit "handler threw")) else none)
      | none =>
        ([pickFx, msg], some (.typeErr (lit "commands[result] is not a function")))
  ⟨{ st1 with currentPrefixArgument := none }, fx, thrown⟩

/-- Model of `E.bindKey` (index.js lines 153-166): drop any existing
binding for the key from the trigger store and append the new
`(key, command, when)` association. -/
def bindKey (keys : List KeyBinding) (key command : Text)
    (whenClause : Text := lit "editorTextFocus") : List KeyBinding :=
  (keys.filter (fun b => b.key ≠ key)) ++ [⟨key, command, whenClause⟩]

/-- The registration proxy installed over `commands` in the extension's
`activate` (extension.js, the Proxy `set` handler): an object value pairs a
trigger with a handler — more than one key is reported with `E.error` and
refused (registry and trigger store untouched); otherwise the command is
registered with VSCode, the trigger is bound to the command name, and the
handler is stored under the name.  Non-object values fall through to a
plain store (`Reflect.set`). -/
def proxySet (registry : CmdRegistry) (keybindings : List KeyBinding)
    (prop : Text) (value : JsVal) : CmdRegistry × List KeyBinding × List Effect :=
  if jsTypeof value = lit "object" then
    let fields := match value with | .obj fs => fs | _ => []
    let keys := fields.map Prod.fst
    if keys.length > 1 then
      (registry, keybindings,
       [.errorMsg (lit "Only 1 key-value pair allowed as value for “commands[\"" ++ prop
          ++ lit "\"]”!")])
    else
      let key := (keys.get? 0).getD []
      let fn := (lookupA key fields).getD .undef
      (setA prop fn registry, bindKey keybindings key prop,
       [.vscodeRegisterCommand prop])
  else (setA prop value registry, keybindings, [])

/-- The texts of the information-message (echo) effects in a trace. -/
def messageTexts (effs : List Effect) : List Text :=
  effs.filterMap (fun e => match e with | .message s => some s | _ => none)

/-- The texts of the insertion effects in a trace. -/
def insertTexts (effs : List Effect) : List Text :=
  effs.filterMap (fun e => match e with | .insertText s => some s | _ => none)

/-- The texts of the error-report effects in a trace. -/
def errorTexts (effs : List Effect) : List Text :=
  effs.filterMap (fun e => match e with | .errorMsg s => some s | _ => none)

/-- The texts of the output-channel lines in a trace. -/
def logTexts (effs : List Effect) : List Text :=
  effs.filterMap (fun e => match e with | .logLine s => some s | _ => none)

/-- The right-hand-side texts of the destructuring matches in a list of
`local`s (capture group 5 of the per-match pattern). -/
def destructObjsOf (locals : List Text) : List Text :=
  locals.filterMap (fun l => (innerDestruct l).map (fun r => r.2.2))

/-- A global literal replace leaves a text without the pattern unchanged. -/
theorem replaceAllF_id (pat rep : Text) (fuel : Nat) (s : Text)
    (h : containsSub s pat = false) : replaceAllF pat rep fuel s = s := by
  induction fuel generalizing s with
  | zero => rfl
  | succ n ih =>
    cases s with
    | nil => rfl
    | cons c cs =>
      simp only [containsSub, Bool.or_eq_false_iff] at h
      simp only [replaceAllF, h.1, Bool.and_false, ite_false]
      exact congrArg (c :: ·) (ih cs h.2)

/-- `replaceAll` version of `replaceAllF_id`. -/
theorem replaceAll_id (pat rep : Text) (s : Text)
    (h : containsSub s pat = false) : replaceAll pat rep s = s :=
  replaceAllF_id pat rep (s.length + 1) s h

/-- The console redirection is the identity on fragments that do not
mention `console.log/error/warn/assert`. -/
theorem consoleRedirect_id (s : Text)
    (h1 : containsSub s (lit "console.log") = false)
    (h2 : containsSub s (lit "console.error") = false)
    (h3 : containsSub s (lit "console.warn") = false)
    (h4 : containsSub s (lit "console.assert") = false) :
    consoleRedirect s = s := by
  unfold consoleRedirect
  rw [replaceAll_id _ _ _ h1, replaceAll_id _ _ _ h2, replaceAll_id _ _ _ h3,
    replaceAll_id _ _ _ h4]

/-- The asterisk scanner is the identity on newline-free texts. -/
theorem stripStarsGoF_id (fuel : Nat) (s : Text)
    (h : ∀ x ∈ s, x ≠ '\n') : stripStarsGoF fuel s = s := by
  induction fuel generalizing s with
  | zero => rfl
  | succ n ih =>
    cases s with
    | nil => rfl
    | cons c cs =>
      simp only [stripStarsGoF, if_neg (h c (List.mem_cons_self c cs))]
      exact congrArg (c :: ·) (ih cs (fun x hx => h x (List.mem_cons_of_mem c hx)))

/-- Asterisk removal is the identity on newline-free texts whose head does
not begin a whitespace-then-asterisk match. -/
theorem stripStars_id (s : Text) (h : ∀ x ∈ s, x ≠ '\n')
    (h0 : starMatchTail s = none) : stripStars s = s := by
  cases s with
  | nil => rfl
  | cons c cs =>
    have hc : c ≠ '\n' := h c (List.mem_cons_self c cs)
    simp only [stripStars, if_neg hc, h0]
    exact stripStarsGoF_id _ _ h

/-- `takeWhile` passes over a block of satisfying elements. -/
theorem takeWhile_append_all {p : Char → Bool} (a b : Text)
    (h : ∀ x ∈ a, p x = true) : (a ++ b).takeWhile p = a ++ b.takeWhile p := by
  induction a with
  | nil => simp
  | cons c cs ih =>
    have hc : p c = true := h c (List.mem_cons_self c cs)
    simp only [List.cons_append, List.takeWhile_cons, hc, if_true]
    exact congrArg (c :: ·) (ih (fun x hx => h x (List.mem_cons_of_mem c hx)))

/-- `takeWhile` keeps a fully satisfying list. -/
theorem takeWhile_all {p : Char → Bool} (a : Text)
    (h : ∀ x ∈ a, p x = true) : a.takeWhile p = a := by
  have := takeWhile_append_all a [] h
  simpa using this

/-- `dropWhile` passes a head that fails the predicate. -/
theorem dropWhile_cons_neg {p : Char → Bool} (c : Char) (cs : Text)
    (h : p c = false) : (c :: cs).dropWhile p = c :: cs := by
  simp [List.dropWhile_cons, h]

/-- Looking up the key just set yields the new value. -/
theorem lookupA_setA_self (x : Text) (v : JsVal) (l : List (Text × JsVal)) :
    lookupA x (setA x v l) = some v := by
  induction l with
  | nil => simp [setA, lookupA]
  | cons p rest ih =>
    by_cases h : p.1 = x
    · simp [setA, lookupA, h]
    · simp [setA, lookupA, h, ih]

/-- Looking up another key is unaffected by `setA`. -/
theorem lookupA_setA_other (x y : Text) (v : JsVal) (l : List (Text × JsVal))
    (h : y ≠ x) : lookupA y (setA x v l) = lookupA y l := by
  have hxy : x ≠ y := Ne.symm h
  induction l with
  | nil => simp [setA, lookupA, hxy]
  | cons p rest ih =>
    by_cases hp : p.1 = x
    · simp [setA, lookupA, hp, hxy]
    · simp only [setA, if_neg hp, lookupA]
      by_cases hy : p.1 = y <;> simp [hy, ih]

/-- A successful lookup witnesses key membership. -/
theorem lookupA_mem {x : Text} {v : JsVal} {l : List (Text × JsVal)}
    (h : lookupA x l = some v) : x ∈ l.map Prod.fst := by
  induction l with
  | nil => exact Option.noConfusion h
  | cons p rest ih =>
    by_cases hp : p.1 = x
    · exact List.mem_cons.mpr (Or.inl hp.symm)
    · simp only [lookupA, if_neg hp] at h
      exact List.mem_cons.mpr (Or.inr (ih h))

/-- A pattern that occurs nowhere in `s` matches at no suffix of `s`. -/
theorem startsW_drop_false (p s : Text) (h : containsSub s p = false) :
    ∀ n, startsW p (s.drop n) = false := by
  induction s with
  | nil =>
    intro n
    simp only [containsSub] at h
    simpa using h
  | cons c cs ih =>
    intro n
    simp only [containsSub, Bool.or_eq_false_iff] at h
    cases n with
    | zero => exact h.1
    | succ m => exact ih h.2 m

/-- The whitespace/`async` loop returns a suffix of its input. -/
theorem dropWsAsyncF_isDrop (fuel : Nat) (s : Text) :
    ∃ n, dropWsAsyncF fuel s = s.drop n := by
  induction fuel generalizing s with
  | zero => exact ⟨0, rfl⟩
  | succ m ih =>
    cases s with
    | nil => exact ⟨0, rfl⟩
    | cons c cs =>
      unfold dropWsAsyncF
      by_cases hws : isWs c = true
      · obtain ⟨n, hn⟩ := ih cs
        exact ⟨n + 1, by rw [if_pos hws, hn]; rfl⟩
      · rw [if_neg hws]
        by_cases ha : startsW (lit "async") (c :: cs) = true
        · obtain ⟨n, hn⟩ := ih ((c :: cs).drop 5)
          refine ⟨n + 5, ?_⟩
          rw [if_pos ha, hn, List.drop_drop, Nat.add_comm]
        · exact ⟨0, by rw [if_neg ha]; rfl⟩

/-- The harvest scan finds nothing in a text without `function`. -/
theorem harvestMatchesF_nil (fuel : Nat) (s : Text)
    (h : containsSub s (lit "function") = false) : harvestMatchesF fuel s = [] := by
  induction fuel generalizing s with
  | zero => rfl
  | succ n ih =>
    cases s with
    | nil => rfl
    | cons c cs =>
      simp only [containsSub, Bool.or_eq_false_iff] at h
      simp only [harvestMatchesF, h.1, Bool.false_eq_true, if_false]
      exact ih cs h.2

/-- Harvesting leaves the registry untouched when the whitespace-stripped
text does not mention `function`. -/
theorem harvestFunctions_id (t : Text) (genv : Env) (cmds : CmdRegistry)
    (h : containsSub (filterNonWs t) (lit "function") = false) :
    harvestFunctions t genv cmds = .ok cmds := by
  unfold harvestFunctions
  rw [harvestMatchesF_nil _ _ h]
  rfl

/-- Word characters are distinct from any fixed non-word character. -/
theorem wordChar_ne {c k : Char} (h : isWordChar c = true)
    (hk : isWordChar k = false) : c ≠ k := by
  intro he
  subst he
  rw [h] at hk
  cases hk

/-- Word characters are not whitespace. -/
theorem wordChar_not_ws {c : Char} (h : isWordChar c = true) : isWs c = false := by
  cases hws : isWs c with
  | false => rfl
  | true =>
    exfalso
    simp only [isWs, Bool.or_eq_true, decide_eq_true_eq] at hws
    rcases hws with ((((h1 | h2) | h3) | h4) | h5) | h6 <;> subst_vars <;>
      exact absurd h (by decide)

/-- `splitOnChar` always produces at least one segment. -/
theorem splitOnChar_ne_nil (sep : Char) (s : Text) : splitOnChar sep s ≠ [] := by
  cases s with
  | nil => simp [splitOnChar]
  | cons c cs =>
    by_cases h : c = sep
    · simp [splitOnChar, h]
    · simp only [splitOnChar, if_neg h]
      cases splitOnChar sep cs <;> simp

/-- A text whose head (after whitespace) does not start with `var` has no
echoable `var` left-hand side. -/
theorem matchVarLhs_not_var (s : Text)
    (h : startsW (lit "var") (s.dropWhile isWs) = false) : matchVarLhs s = none := by
  unfold matchVarLhs
  simp [h]

/-- A text of identifier characters only (a bare name) has no echoable
`var` left-hand side: even if it starts with the letters `var`, there is no
`=` to the right. -/
theorem matchVarLhs_none_word (s : Text)
    (hword : ∀ x ∈ s, isWordChar x = true) : matchVarLhs s = none := by
  have hdrop : s.dropWhile isWs = s := by
    cases s with
    | nil => rfl
    | cons c cs =>
      exact dropWhile_cons_neg c cs (wordChar_not_ws (hword c (List.mem_cons_self c cs)))
  unfold matchVarLhs
  rw [hdrop]
  by_cases hv : startsW (lit "var") s = true
  · have hall : ∀ x ∈ s.drop 3, (fun c => decide (c ≠ '=')) x = true := by
      intro x hx
      simpa using wordChar_ne (hword x (List.mem_of_mem_drop hx)) (by decide)
    simp only [hv, if_true, takeWhile_all _ hall, List.drop_length]
    simp
  · simp [hv]

/-- A text without the letters `function` has no function-declaration
match. -/
theorem matchFuncName_none_nofun (s : Text)
    (hcontain : containsSub s (lit "function") = false) : matchFuncName s = none := by
  unfold matchFuncName
  obtain ⟨n, hn⟩ := dropWsAsyncF_isDrop (s.length + 1) s
  rw [hn]
  simp [startsW_drop_false _ _ hcontain n]

/-- The async-template recogniser rejects any text not starting with `(`. -/
theorem recognizeAsync_cons (c : Char) (cs : Text) (h : c ≠ '(') :
    recognizeAsync (c :: cs) = none := by
  have hfalse : startsW (lit "(async () => " ++ [obc] ++ lit "\n\n") (c :: cs) = false := by
    rw [show (lit "(async () => " ++ [obc] ++ lit "\n\n")
        = '(' :: (lit "async () => " ++ [obc] ++ lit "\n\n") from rfl]
    simp only [startsW, Bool.and_eq_false_iff]
    left
    simpa using fun he => h he.symm
  simp only [recognizeAsync, hfalse]
  simp

/-- A successful prefix match transports a character-class invariant from
the text to the pattern. -/
theorem startsW_all {p : Char → Bool} (pat s : Text) (hst : startsW pat s = true)
    (hs : ∀ x ∈ s, p x = true) : ∀ y ∈ pat, p y = true := by
  induction pat generalizing s with
  | nil => intro y hy; cases hy
  | cons q qs ih =>
    cases s with
    | nil => exact absurd hst (by simp [startsW])
    | cons c cs =>
      simp only [startsW, Bool.and_eq_true, decide_eq_true_eq] at hst
      intro y hy
      rcases List.mem_cons.mp hy with hq | hq
      · subst hq
        rw [hst.1]
        exact hs c (List.mem_cons_self c cs)
      · exact ih cs hst.2 (fun x hx => hs x (List.mem_cons_of_mem c hx)) y hq

/-- A pattern containing a character outside a class cannot occur inside a
text drawn entirely from that class. -/
theorem containsSub_class {p : Char → Bool} (s pat : Text)
    (hs : ∀ x ∈ s, p x = true) (y : Char) (hy : y ∈ pat) (hpy : p y = false) :
    containsSub s pat = false := by
  induction s with
  | nil =>
    cases pat with
    | nil => cases hy
    | cons q qs => simp [containsSub, startsW]
  | cons c cs ih =>
    simp only [containsSub, Bool.or_eq_false_iff]
    constructor
    · cases hst : startsW pat (c :: cs) with
      | false => rfl
      | true =>
        exact absurd (startsW_all pat (c :: cs) hst hs y hy) (by simp [hpy])
    · exact ih (fun x hx => hs x (List.mem_cons_of_mem c hx))

/-- The `var`-assignment regex on a fragment `var name = rhs` captures the
left-hand side (with its surrounding spaces). -/
theorem matchVarLhs_shape (name rhs : Text) (hno : ∀ x ∈ name, x ≠ '=') :
    matchVarLhs (lit "var " ++ name ++ lit " = " ++ rhs)
      = some (' ' :: (name ++ [' '])) := by
  have hfrag : lit "var " ++ name ++ lit " = " ++ rhs
      = 'v' :: 'a' :: 'r' :: ' ' :: (name ++ (' ' :: '=' :: ' ' :: rhs)) := by
    rw [show lit "var " = ['v', 'a', 'r', ' '] from rfl,
      show lit " = " = [' ', '=', ' '] from rfl]
    simp
  rw [hfrag]
  have h1 : (('v' :: 'a' :: 'r' :: ' ' :: (name ++ (' ' :: '=' :: ' ' :: rhs))) : Text).dropWhile isWs
      = 'v' :: 'a' :: 'r' :: ' ' :: (name ++ (' ' :: '=' :: ' ' :: rhs)) :=
    dropWhile_cons_neg _ _ (by decide)
  have h2 : startsW (lit "var")
      ('v' :: 'a' :: 'r' :: ' ' :: (name ++ (' ' :: '=' :: ' ' :: rhs))) = true := by
    rw [show lit "var" = ['v', 'a', 'r'] from rfl]
    simp [startsW]
  have h4 : ((' ' :: (name ++ (' ' :: '=' :: ' ' :: rhs))) : Text).takeWhile
      (fun c => c ≠ '=') = ' ' :: (name ++ [' ']) := by
    simp only [List.takeWhile_cons]
    rw [if_pos (by decide)]
    rw [takeWhile_append_all name _ (fun x hx => by simpa using hno x hx)]
    simp only [List.takeWhile_cons]
    rw [if_pos (by decide)]
    norm_num
  have h5 : ((' ' :: (name ++ (' ' :: '=' :: ' ' :: rhs))) : Text).drop
      (' ' :: (name ++ [' '])).length = '=' :: ' ' :: rhs := by
    have hsplit : (' ' :: (name ++ (' ' :: '=' :: ' ' :: rhs)))
        = (' ' :: (name ++ [' '])) ++ ('=' :: ' ' :: rhs) := by simp
    rw [hsplit, List.drop_left]
  simp only [matchVarLhs, h1, h2, if_true, List.drop_succ_cons, List.drop_zero, h4, h5]
  simp

/-- The function-declaration regex on a fragment
`function name(params) body...` captures the declared name. -/
theorem matchFuncName_shape (name params body : Text)
    (hword : ∀ x ∈ name, isWordChar x = true) (hne : name ≠ []) :
    matchFuncName (lit "function " ++ name ++ lit "(" ++ params ++ lit ") " ++ body)
      = some name := by
  obtain ⟨n0, ntail, rfl⟩ := List.exists_cons_of_ne_nil hne
  have hfrag : lit "function " ++ (n0 :: ntail) ++ lit "(" ++ params ++ lit ") " ++ body
      = 'f' :: 'u' :: 'n' :: 'c' :: 't' :: 'i' :: 'o' :: 'n' :: ' '
        :: (n0 :: (ntail ++ ('(' :: (params ++ (')' :: ' ' :: body))))) := by
    rw [show lit "function " = ['f', 'u', 'n', 'c', 't', 'i', 'o', 'n', ' '] from rfl,
      show lit "(" = ['('] from rfl, show lit ") " = [')', ' '] from rfl]
    simp
  rw [hfrag]
  have h0 : dropWsAsyncF
      (('f' :: 'u' :: 'n' :: 'c' :: 't' :: 'i' :: 'o' :: 'n' :: ' '
        :: (n0 :: (ntail ++ ('(' :: (params ++ (')' :: ' ' :: body)))))).length + 1)
      ('f' :: 'u' :: 'n' :: 'c' :: 't' :: 'i' :: 'o' :: 'n' :: ' '
        :: (n0 :: (ntail ++ ('(' :: (params ++ (')' :: ' ' :: body)))))) =
      'f' :: 'u' :: 'n' :: 'c' :: 't' :: 'i' :: 'o' :: 'n' :: ' '
        :: (n0 :: (ntail ++ ('(' :: (params ++ (')' :: ' ' :: body))))) := by
    have hasync : startsW (lit "async")
        ('f' :: 'u' :: 'n' :: 'c' :: 't' :: 'i' :: 'o' :: 'n' :: ' '
          :: (n0 :: (ntail ++ ('(' :: (params ++ (')' :: ' ' :: body)))))) = false := by
      rw [show lit "async" = ['a', 's', 'y', 'n', 'c'] from rfl]
      simp [startsW]
    simp only [dropWsAsyncF, hasync]
    rw [if_neg (by decide), if_neg (by simp)]
  have h2 : startsW (lit "function")
      ('f' :: 'u' :: 'n' :: 'c' :: 't' :: 'i' :: 'o' :: 'n' :: ' '
        :: (n0 :: (ntail ++ ('(' :: (params ++ (')' :: ' ' :: body)))))) = true := by
    rw [show lit "function" = ['f', 'u', 'n', 'c', 't', 'i', 'o', 'n'] from rfl]
    simp [startsW]
  have h3 : ((' ' :: (n0 :: (ntail ++ ('(' :: (params ++ (')' :: ' ' :: body)))))) :
      Text).dropWhile isWs = n0 :: (ntail ++ ('(' :: (params ++ (')' :: ' ' :: body)))) := by
    rw [List.dropWhile_cons]
    rw [if_pos (by decide)]
    exact dropWhile_cons_neg _ _ (wordChar_not_ws (hword n0 (List.mem_cons_self n0 ntail)))
  have h4 : ((n0 :: (ntail ++ ('(' :: (params ++ (')' :: ' ' :: body))))) :
      Text).takeWhile isWordChar = n0 :: ntail := by
    rw [List.takeWhile_cons]
    rw [if_pos (hword n0 (List.mem_cons_self n0 ntail))]
    rw [takeWhile_append_all ntail _
      (fun x hx => hword x (List.mem_cons_of_mem n0 hx))]
    simp only [List.takeWhile_cons]
    rw [if_neg (by decide)]
    simp
  simp only [matchFuncName, h0, h2, if_true, List.drop_succ_cons, List.drop_zero, h3, h4]

/-- C10: for every fragment whose (normalised) text does not contain the
`await` marker, the rewriter applies only the leading-asterisk removal and
the `console.*` redirection — no async wrapping, no destructuring rewrite
and no qualifier stripping — so the text handed to the evaluator is exactly
the normalised captured fragment (and the echoable left-hand side is read
off that same text). -/
theorem c10_no_await_rewrite_identity (raw : Text)
    (h : containsSub (consoleRedirect (stripStars raw)) (lit "await") = false) :
    (rewriteSelection raw).text = consoleRedirect (stripStars raw)
    ∧ (rewriteSelection raw).echoable = echoableLeftSideOf (consoleRedirect (stripStars raw))
    ∧ (rewriteSelection raw).failed = none := by
  unfold rewriteSelection
  simp [h]

/-- Witness for `c10_no_await_rewrite_identity` at the fragment `1 + 2`. -/
theorem c10_no_await_rewrite_identity_witness :
    (rewriteSelection (lit "1 + 2")).text = consoleRedirect (stripStars (lit "1 + 2"))
    ∧ (rewriteSelection (lit "1 + 2")).echoable
        = echoableLeftSideOf (consoleRedirect (stripStars (lit "1 + 2")))
    ∧ (rewriteSelection (lit "1 + 2")).failed = none :=
  c10_no_await_rewrite_identity (lit "1 + 2") (by decide)

/-- C7: the Prefix Modifier is `undefined` by default, reads back as the
dispatch argument inside any handler invocation of this dispatch, and is
reset to `undefined` after every dispatch of `executeRegisteredCommand`
completes — normally, by cancellation, or via a throw from the handler. -/
theorem c7_prefix_modifier_scoping (st : EvalState) (arg : Option JsVal)
    (pick : Option Text) (handlerThrows : Bool) :
    (executeRegisteredCommand st arg pick handlerThrows).state.currentPrefixArgument = none
    ∧ initState.currentPrefixArgument = none
    ∧ ∀ n h a p, Effect.invoke n h a p
        ∈ (executeRegisteredCommand st arg pick handlerThrows).effects → p = arg := by
  refine ⟨?_, rfl, ?_⟩
  · unfold executeRegisteredCommand
    cases pick with
    | none => rfl
    | some name => cases lookupA name st.commands <;> rfl
  · intro n h a p hmem
    unfold executeRegisteredCommand at hmem
    cases pick with
    | none => simp at hmem
    | some name =>
      cases hl : lookupA name st.commands with
      | none => simp only [hl] at hmem; simp at hmem
      | some v =>
        simp only [hl, List.mem_cons, List.not_mem_nil, or_false] at hmem
        rcases hmem with h1 | h2 | h3
        · cases h1
        · cases h2
        · cases h3
          rfl

/-- Witness for `c7_prefix_modifier_scoping`: after a cancelled dispatch
with modifier 5, the Prefix Modifier reads back as unset. -/
theorem c7_prefix_modifier_scoping_witness :
    (executeRegisteredCommand initState (some (.num 5)) none false).state.currentPrefixArgument
      = none :=
  (c7_prefix_modifier_scoping initState (some (.num 5)) none false).1

/-- C9: registering a command value that pairs triggers with handlers is
refused with an `E.error` report when more than one trigger key is
supplied (registry and trigger store unchanged); with exactly one trigger
the handler is stored under the command name and the trigger is bound to
it. -/
theorem c9_single_trigger_registration (reg : CmdRegistry) (kb : List KeyBinding)
    (prop : Text) :
    (∀ fields : List (Text × JsVal), fields.length > 1 →
      proxySet reg kb prop (.obj fields)
        = (reg, kb, [.errorMsg (lit "Only 1 key-value pair allowed as value for “commands[\""
            ++ prop ++ lit "\"]”!")]))
    ∧ (∀ (k : Text) (f : JsVal),
      proxySet reg kb prop (.obj [(k, f)])
        = (setA prop f reg, bindKey kb k prop, [.vscodeRegisterCommand prop])
      ∧ lookupA prop (setA prop f reg) = some f
      ∧ (⟨k, prop, lit "editorTextFocus"⟩ : KeyBinding) ∈ bindKey kb k prop) := by
  constructor
  · intro fields hlen
    unfold proxySet
    rw [if_pos (by rfl)]
    simp only [List.length_map]
    rw [if_pos hlen]
  · intro k f
    refine ⟨?_, lookupA_setA_self prop f reg, ?_⟩
    · unfold proxySet
      rw [if_pos (by rfl)]
      simp [lookupA]
    · unfold bindKey
      simp

/-- Witness for `c9_single_trigger_registration`: a registration with two
triggers is refused; a registration with one trigger stores the handler and
binds the trigger. -/
theorem c9_single_trigger_registration_witness :
    proxySet [] [] (lit "speak") (.obj [(lit "cmd+k", .num 1), (lit "cmd+j", .num 2)])
      = ([], [], [.errorMsg (lit "Only 1 key-value pair allowed as value for “commands[\""
          ++ lit "speak" ++ lit "\"]”!")])
    ∧ proxySet [] [] (lit "speak") (.obj [(lit "cmd+k", .num 1)])
        = (setA (lit "speak") (.num 1) [], bindKey [] (lit "cmd+k") (lit "speak"),
           [.vscodeRegisterCommand (lit "speak")])
    ∧ lookupA (lit "speak") (setA (lit "speak") (.num 1) []) = some (.num 1)
    ∧ (⟨lit "cmd+k", lit "speak", lit "editorTextFocus"⟩ : KeyBinding)
        ∈ bindKey [] (lit "cmd+k") (lit "speak") := by
  have h := c9_single_trigger_registration [] [] (lit "speak")
  have h1 := h.1 [(lit "cmd+k", .num 1), (lit "cmd+j", .num 2)] (by decide)
  have h2 := h.2 (lit "cmd+k") (.num 1)
  exact ⟨h1, h2.1, h2.2.1, h2.2.2⟩

/-- C8: a fragment without the await marker, without an echoable left-hand
side and without a prefix modifier whose raw result is `undefined` or
stringifies to the empty-object representation produces no echo call (no
message and no insertion) and no error. -/
theorem c8_suppression_rule (p : Option JsVal) (textR : Text) (r : JsVal) (genv : Env)
    (hp : jsTruthyOpt p = false)
    (hawait : containsSub textR (lit "await") = false)
    (hr : r = JsVal.undef ∨ Estring r = [obc, cbc]) :
    messageTexts (routeResult p textR none r genv).1 = []
    ∧ insertTexts (routeResult p textR none r genv).1 = []
    ∧ (routeResult p textR none r genv).2 = none := by
  unfold routeResult
  rcases hr with rfl | hbr
  · simp [hp, hawait, messageTexts, insertTexts]
  · cases r <;> simp_all [messageTexts, insertTexts, Estring]

/-- Witness for `c8_suppression_rule`: an empty-object result is silent. -/
theorem c8_suppression_rule_witness :
    messageTexts (routeResult none (lit "x") none (.obj []) []).1 = []
    ∧ insertTexts (routeResult none (lit "x") none (.obj []) []).1 = []
    ∧ (routeResult none (lit "x") none (.obj []) []).2 = none :=
  c8_suppression_rule none (lit "x") (.obj []) [] (by rfl) (by decide)
    (Or.inr (by rfl))

/-- A text-map lookup succeeds exactly on stored keys. -/
theorem lookupT_isSome_iff_mem (x : Text) (l : List (Text × Text)) :
    (lookupT x l).isSome = true ↔ x ∈ l.map Prod.fst := by
  induction l with
  | nil => simp [lookupT]
  | cons p rest ih =>
    by_cases hp : p.1 = x
    · simp [lookupT, hp]
    · simp only [lookupT, if_neg hp, List.map_cons, List.mem_cons]
      rw [ih]
      constructor
      · exact Or.inr
      · rintro (h | h)
        · exact absurd h.symm hp
        · exact h

/-- A right-hand side already declared stays declared and unchanged through
the per-name pieces. -/
theorem destructPieces_declared_mem (u objT : Text) (io : Bool) (vars : List Text)
    (idx : Nat) (declared : List Text) (h : objT ∈ declared) :
    (destructPieces u objT io vars idx declared).2 = declared := by
  induction vars generalizing idx with
  | nil => rfl
  | cons v rest ih =>
    simp only [destructPieces, destructPiece, declareTemp, if_pos h]
    cases io <;> simp [ih (idx + 1)]

/-- A new right-hand side is declared exactly once by the per-name pieces. -/
theorem destructPieces_declared_new (u objT : Text) (io : Bool) (v : Text)
    (rest : List Text) (idx : Nat) (declared : List Text) (h : objT ∉ declared) :
    (destructPieces u objT io (v :: rest) idx declared).2 = objT :: declared := by
  simp only [destructPieces, destructPiece, declareTemp, if_neg h]
  cases io <;>
    simp [destructPieces_declared_mem u objT _ rest (idx + 1) (objT :: declared)
      (List.mem_cons_self objT declared)]

/-- Invariant of the destructuring rewrite fold: the `identifiers` keys
mirror the `declared` flags, stay duplicate-free, draw their fresh names
from the counter-indexed supply, and grow by exactly the right-hand sides
of the processed matches. -/
theorem destructStep_fold_inv (locals : List Text) :
    ∀ (st dst : DestructState),
    locals.foldlM destructStep st = .ok dst →
    st.identifiers.map Prod.fst = st.declared.reverse →
    (st.identifiers.map Prod.fst).Nodup →
    st.identifiers.map Prod.snd = (List.range st.counter).map uuidName →
    dst.identifiers.map Prod.fst = dst.declared.reverse
      ∧ (dst.identifiers.map Prod.fst).Nodup
      ∧ dst.identifiers.map Prod.snd = (List.range dst.counter).map uuidName
      ∧ ∀ x, x ∈ dst.identifiers.map Prod.fst
          ↔ (x ∈ st.identifiers.map Prod.fst ∨ x ∈ destructObjsOf locals) := by
  induction locals with
  | nil =>
    intro st dst hfold h1 h2 h3
    have hsd : st = dst := by
      have : (pure st : Except JsErr DestructState) = Except.ok dst := by
        simpa [List.foldlM] using hfold
      simpa [pure, Except.pure] using this
    subst hsd
    exact ⟨h1, h2, h3, by simp [destructObjsOf]⟩
  | cons l rest ih =>
    intro st dst hfold h1 h2 h3
    rw [List.foldlM_cons] at hfold
    cases hstep : destructStep st l with
    | error e =>
      rw [hstep] at hfold
      simp [Bind.bind, Except.bind] at hfold
    | ok st₁ =>
      rw [hstep] at hfold
      have hfold : rest.foldlM destructStep st₁ = .ok dst := by
        simpa [Bind.bind, Except.bind] using hfold
      cases hinner : innerDestruct l with
      | none => simp [destructStep, hinner] at hstep
      | some triple =>
        obtain ⟨b, varsRaw, objT⟩ := triple
        have hobjs : destructObjsOf (l :: rest) = objT :: destructObjsOf rest := by
          simp [destructObjsOf, hinner]
        obtain ⟨v0, vrest, hvars⟩ :
            ∃ v0 vrest, splitOnChar ',' (filterNonWs varsRaw) = v0 :: vrest := by
          cases hs : splitOnChar ',' (filterNonWs varsRaw) with
          | nil => exact absurd hs (splitOnChar_ne_nil ',' (filterNonWs varsRaw))
          | cons a as => exact ⟨a, as, rfl⟩
        by_cases hknown : (lookupT objT st.identifiers).isSome = true
        · have hmem : objT ∈ st.identifiers.map Prod.fst :=
            (lookupT_isSome_iff_mem objT st.identifiers).mp hknown
          have hmemd : objT ∈ st.declared := by
            have := h1 ▸ hmem
            simpa using this
          have hst₁ : st₁.identifiers = st.identifiers ∧ st₁.declared = st.declared
              ∧ st₁.counter = st.counter := by
            simp only [destructStep, hinner, hknown, if_true, if_pos hknown] at hstep
            rw [hvars] at hstep
            rw [destructPieces_declared_mem _ _ _ _ _ _ hmemd] at hstep
            cases hstep.symm
            exact ⟨rfl, rfl, rfl⟩
          obtain ⟨hi, hd, hc⟩ := hst₁
          have ihres := ih st₁ dst hfold (by rw [hi, hd]; exact h1)
            (by rw [hi]; exact h2) (by rw [hi, hc]; exact h3)
          refine ⟨ihres.1, ihres.2.1, ihres.2.2.1, ?_⟩
          intro x
          rw [ihres.2.2.2 x, hi, hobjs]
          constructor
          · rintro (h | h)
            · exact Or.inl h
            · exact Or.inr (List.mem_cons_of_mem objT h)
          · rintro (h | h)
            · exact Or.inl h
            · rcases List.mem_cons.mp h with rfl | h
              · exact Or.inl hmem
              · exact Or.inr h
        · have hnotmem : objT ∉ st.identifiers.map Prod.fst := by
            intro hmem
            exact hknown ((lookupT_isSome_iff_mem objT st.identifiers).mpr hmem)
          have hnotd : objT ∉ st.declared := by
            intro hmemd
            apply hnotmem
            rw [h1]
            simpa using hmemd
          have hst₁ : st₁.identifiers = st.identifiers ++ [(objT, uuidName st.counter)]
              ∧ st₁.declared = objT :: st.declared ∧ st₁.counter = st.counter + 1 := by
            simp only [destructStep, hinner, hknown, if_false, if_neg hknown] at hstep
            rw [hvars] at hstep
            rw [destructPieces_declared_new _ _ _ _ _ _ _ hnotd] at hstep
            cases hstep.symm
            exact ⟨rfl, rfl, rfl⟩
          obtain ⟨hi, hd, hc⟩ := hst₁
          have hkeys : st₁.identifiers.map Prod.fst
              = st.identifiers.map Prod.fst ++ [objT] := by
            rw [hi]; simp
          have ihres := ih st₁ dst hfold
            (by rw [hkeys, hd, h1]; simp)
            (by
              rw [hkeys]
              exact List.Nodup.append h2 (List.nodup_singleton objT)
                (by simpa using fun h => hnotmem h))
            (by rw [hi, hc]; simp [h3, List.range_succ])
          refine ⟨ihres.1, ihres.2.1, ihres.2.2.1, ?_⟩
          intro x
          rw [ihres.2.2.2 x, hkeys, hobjs]
          simp only [List.mem_append, List.mem_singleton, List.mem_cons]
          tauto

/-- Counting in a duplicate-free list yields one for members. -/
theorem count_eq_one_nodup {l : List Text} {a : Text} (hnd : l.Nodup) (hm : a ∈ l) :
    l.count a = 1 := by
  induction l with
  | nil => cases hm
  | cons b rest ih =>
    rw [List.count_cons]
    rcases List.mem_cons.mp hm with rfl | hm'
    · have hnot : a ∉ rest := (List.nodup_cons.mp hnd).1
      rw [List.count_eq_zero.mpr hnot]
      simp
    · have hne : a ≠ b := by
        rintro rfl
        exact (List.nodup_cons.mp hnd).1 hm'
      rw [ih (List.nodup_cons.mp hnd).2 hm']
      simp [hne, Ne.symm hne]

/-- C3: across the destructuring rewrite of a fragment, exactly one
internal temporary binding is created per distinct right-hand-side
expression text — the `identifiers` map and the `declared` flags each hold
the right-hand side of a processed match exactly once, no matter how many
destructuring statements (object or array form) or destructured names
reference it, and the temporaries draw distinct names from the fresh
supply. -/
theorem c3_one_temporary_per_distinct_rhs (locals : List Text) (t0 : Text)
    (dst : DestructState)
    (hfold : locals.foldlM destructStep ⟨t0, [], [], 0⟩ = .ok dst) :
    (∀ objT : Text, (dst.identifiers.map Prod.fst).count objT
        = if objT ∈ destructObjsOf locals then 1 else 0)
    ∧ (∀ objT : Text, dst.declared.count objT
        = if objT ∈ destructObjsOf locals then 1 else 0)
    ∧ dst.identifiers.map Prod.snd = (List.range dst.counter).map uuidName := by
  obtain ⟨heq, hnd, hsupply, hmem⟩ :=
    destructStep_fold_inv locals ⟨t0, [], [], 0⟩ dst hfold (by simp) (by simp) (by simp)
  have hmem' : ∀ x, x ∈ dst.identifiers.map Prod.fst ↔ x ∈ destructObjsOf locals := by
    intro x
    rw [hmem x]
    simp
  have hcount : ∀ objT : Text, (dst.identifiers.map Prod.fst).count objT
      = if objT ∈ destructObjsOf locals then 1 else 0 := by
    intro o
    by_cases hm : o ∈ destructObjsOf locals
    · rw [if_pos hm]
      exact count_eq_one_nodup hnd ((hmem' o).mpr hm)
    · rw [if_neg hm]
      exact List.count_eq_zero.mpr (fun hh => hm ((hmem' o).mp hh))
  refine ⟨hcount, ?_, hsupply⟩
  intro o
  have hrev : dst.declared.count o = dst.declared.reverse.count o :=
    (List.count_reverse o dst.declared).symm
  rw [hrev, ← heq, hcount o]

/-- Witness for `c3_one_temporary_per_distinct_rhs`: an object and an array
destructuring sharing a side-effecting right-hand side `query()` yield a
single shared temporary. -/
theorem c3_one_temporary_per_distinct_rhs_witness :
    (([(lit "query()", lit "uuid-0")].map (Prod.fst (α := Text) (β := Text))).count
        (lit "query()")
      = if (lit "query()") ∈ destructObjsOf
          [lit "var " ++ [obc] ++ lit "a, b" ++ [cbc] ++ lit " = query()",
           lit "var [c, ...rest] = query()"] then 1 else 0)
    ∧ (([lit "query()"] : List Text).count (lit "query()")
      = if (lit "query()") ∈ destructObjsOf
          [lit "var " ++ [obc] ++ lit "a, b" ++ [cbc] ++ lit " = query()",
           lit "var [c, ...rest] = query()"] then 1 else 0)
    ∧ [(lit "query()", lit "uuid-0")].map (Prod.snd (α := Text) (β := Text))
      = (List.range 1).map uuidName := by
  have h := c3_one_temporary_per_distinct_rhs
    [lit "var " ++ [obc] ++ lit "a, b" ++ [cbc] ++ lit " = query()",
     lit "var [c, ...rest] = query()"] []
    ⟨[], [(lit "query()", lit "uuid-0")], [lit "query()"], 1⟩ (by rfl)
  exact ⟨h.1 (lit "query()"), h.2.1 (lit "query()"), h.2.2⟩

/-- Counterexample to C1 as stated: evaluating `let x = 1 + 2` does not
strip the qualifier (the rewritten text still carries `let`), echoes
nothing (not `3`), leaves the Shared Global Environment without `x`, and a
later independent evaluation of `x * 10` throws a ReferenceError instead of
yielding `30`. -/
theorem c1_let_not_persisted_cex :
    (rewriteSelection (lit "let x = 1 + 2")).text = lit "let x = 1 + 2"
    ∧ messageTexts (evaluateSelection initState none true (lit "let x = 1 + 2")).effects = []
    ∧ (evaluateSelection initState none true (lit "let x = 1 + 2")).state.env = []
    ∧ (evaluateSelection initState none true (lit "let x = 1 + 2")).thrown = none
    ∧ (evaluateSelection initState none true (lit "x * 10")).thrown
        = some (.ref (lit "x")) :=
  ⟨rfl, rfl, rfl, rfl, rfl⟩

/-- Counterexample to C2 as stated: the synchronous fragment `nope` throws
a ReferenceError that escapes `evaluateSelection` uncaught — no error
report is routed through `E.error`. -/
theorem c2_sync_error_propagates_cex :
    (evaluateSelection initState none true (lit "nope")).thrown
        = some (.ref (lit "nope"))
    ∧ errorTexts (evaluateSelection initState none true (lit "nope")).effects = [] :=
  ⟨rfl, rfl⟩

/-- Counterexample to C6 as stated: evaluating
`function hi(x) \x7b 0 \x7d` (no `E` parameter) does echo — the function's
source tagged `function` — rather than echoing nothing, and evaluating
`function greet(E) \x7b 0 \x7d` echoes the function's source, not the bare
name `greet`. -/
theorem c6_function_echo_cex :
    messageTexts (evaluateSelection initState none true
        (lit "function hi(x) " ++ [obc] ++ lit " 0 " ++ [cbc])).effects
      = [lit "function hi(x) " ++ [obc] ++ lit " 0 " ++ [cbc] ++ lit " ~ function"]
    ∧ (evaluateSelection initState none true
        (lit "function hi(x) " ++ [obc] ++ lit " 0 " ++ [cbc])).state.commands = []
    ∧ messageTexts (evaluateSelection initState none true
        (lit "function greet(E) " ++ [obc] ++ lit " 0 " ++ [cbc])).effects
      = [lit "function greet(E) " ++ [obc] ++ lit " 0 " ++ [cbc] ++ lit " ~ function"]
    ∧ messageTexts (evaluateSelection initState none true
        (lit "function greet(E) " ++ [obc] ++ lit " 0 " ++ [cbc])).effects
      ≠ [lit "greet ~ function"] := by
  refine ⟨rfl, rfl, rfl, ?_⟩
  decide

/-- The async-template recogniser rejects a parenthesised text whose second
character is not `a`. -/
theorem recognizeAsync_cons2 (c : Char) (cs : Text) (h : c ≠ 'a') :
    recognizeAsync ('(' :: c :: cs) = none := by
  have hfalse : startsW (lit "(async () => " ++ [obc] ++ lit "\n\n") ('(' :: c :: cs)
      = false := by
    rw [show (lit "(async () => " ++ [obc] ++ lit "\n\n")
        = '(' :: 'a' :: (lit "sync () => " ++ [obc] ++ lit "\n\n") from rfl]
    simp only [startsW, Bool.and_eq_false_iff]
    right
    left
    simpa using fun he => h he.symm
  simp only [recognizeAsync, hfalse]
  simp

/-- The rewrite stage emits only output-channel lines and subprocess calls:
no messages, no errors, no insertions. -/
theorem rewrite_fx_classes (raw : Text) :
    messageTexts (rewriteSelection raw).fx = []
    ∧ errorTexts (rewriteSelection raw).fx = []
    ∧ insertTexts (rewriteSelection raw).fx = [] := by
  simp only [rewriteSelection]
  split
  · split
    all_goals
      split_ifs <;>
        simp [messageTexts, errorTexts, insertTexts, letWarnLines,
          List.filterMap_append]
  · split_ifs <;>
      simp [messageTexts, errorTexts, insertTexts, letWarnLines,
        List.filterMap_append]

/-- Whitespace stripping is the identity on identifier text. -/
theorem filterNonWs_word (s : Text) (hword : ∀ x ∈ s, isWordChar x = true) :
    filterNonWs s = s := by
  unfold filterNonWs
  rw [List.filter_eq_self]
  intro a ha
  simp [wordChar_not_ws (hword a ha)]

/-- Result routing echoes a non-suppressed raw result (no prefix argument,
no await marker, no echoable left-hand side). -/
theorem route_echo_result (p : Option JsVal) (t : Text) (v : JsVal) (g : Env)
    (hp : jsTruthyOpt p = false)
    (ht : containsSub t (lit "await") = false)
    (hv1 : v ≠ JsVal.undef) (hv2 : Estring v ≠ [obc, cbc]) :
    routeResult p t none v g
      = ([Effect.logLine (lit "undefined"), echoFunction v], none) := by
  unfold routeResult
  cases v <;> simp_all

/-- The rewrite stage on a fragment without the await marker: only the
normalisation passes apply. -/
theorem rewriteSelection_no_await (raw : Text)
    (h : containsSub (consoleRedirect (stripStars raw)) (lit "await") = false) :
    (rewriteSelection raw).text = consoleRedirect (stripStars raw)
    ∧ (rewriteSelection raw).echoable = echoableLeftSideOf (consoleRedirect (stripStars raw))
    ∧ (rewriteSelection raw).failed = none := by
  unfold rewriteSelection
  simp [h]

/-- Evaluating a bare persisted name: the fragment is left untouched by the
rewriter, the lookup succeeds in the Shared Global Environment, and the
value is echoed with its runtime type. -/
theorem evalSel_bare_name (st : EvalState) (name : Text) (v : JsVal)
    (hword : ∀ x ∈ name, isWordChar x = true) (hne : name ≠ [])
    (hnawait : containsSub name (lit "await") = false)
    (hnfun : containsSub name (lit "function") = false)
    (hnparse : parseFragment name = some [Stmt.exprStmt (Expr.ident name)])
    (hlook : lookupA name st.env = some v)
    (hv1 : v ≠ JsVal.undef) (hv2 : Estring v ≠ [obc, cbc]) :
    (evaluateSelection st none true name).thrown = none
    ∧ messageTexts (evaluateSelection st none true name).effects
        = [Estring v ++ lit " ~ " ++ jsTypeof v]
    ∧ (evaluateSelection st none true name).state.env = st.env
    ∧ (evaluateSelection st none true name).state.commands = st.commands := by
  obtain ⟨n0, ntail, rfl⟩ := List.exists_cons_of_ne_nil hne
  have hw0 : isWordChar n0 = true := hword n0 (List.mem_cons_self n0 ntail)
  have hstrip : stripStars (n0 :: ntail) = n0 :: ntail := by
    apply stripStars_id
    · exact fun x hx => wordChar_ne (hword x hx) (by decide)
    · unfold starMatchTail
      rw [dropWhile_cons_neg _ _ (wordChar_not_ws hw0)]
      simp [wordChar_ne hw0 (by decide : isWordChar '*' = false)]
  have hcr : consoleRedirect (n0 :: ntail) = n0 :: ntail := by
    apply consoleRedirect_id <;>
      exact containsSub_class (p := isWordChar) _ _ hword '.' (by decide) (by decide)
  have hecho : echoableLeftSideOf (n0 :: ntail) = none := by
    unfold echoableLeftSideOf
    rw [matchVarLhs_none_word _ hword, matchFuncName_none_nofun _ hnfun]
    rfl
  have hrw := rewriteSelection_no_await (n0 :: ntail) (by rw [hstrip, hcr]; exact hnawait)
  rw [hstrip, hcr, hecho] at hrw
  have hrecog : recognizeAsync (n0 :: ntail) = none :=
    recognizeAsync_cons n0 ntail (wordChar_ne hw0 (by decide : isWordChar '(' = false))
  have hjs : jsEval st.env (n0 :: ntail) = (st.env, .ok v, []) := by
    unfold jsEval
    rw [hrecog, hnparse]
    simp only [runStmtsGo, runStmt, List.nil_append, evalExpr, hlook]
  have hharv : harvestFunctions (n0 :: ntail) st.env st.commands = .ok st.commands := by
    apply harvestFunctions_id
    rw [filterNonWs_word _ hword]
    exact hnfun
  have hroute := route_echo_result none (n0 :: ntail) v st.env rfl hnawait hv1 hv2
  unfold evaluateSelection
  simp only [Bool.not_true, Bool.false_eq_true, if_false, hrw.1, hrw.2.1, hrw.2.2, hjs,
    hharv, hroute, ite_false]
  refine ⟨trivial, ?_, trivial, trivial⟩
  simp only [messageTexts, List.filterMap_append]
  have hfx := (rewrite_fx_classes (n0 :: ntail)).1
  unfold messageTexts at hfx
  rw [hfx]
  simp [echoFunction]

/-- Evaluating a single persistent declaration `var name = rhs` (no await
marker): the qualifier survives normalisation untouched, indirect `eval`
binds the name globally, and the echoable left-hand side is re-evaluated in
parentheses and echoed with its runtime type. -/
theorem evalSel_var_decl (st : EvalState) (name rhs : Text) (e : Expr) (v : JsVal)
    (hword : ∀ x ∈ name, isWordChar x = true)
    (hrhsnl : ∀ x ∈ rhs, x ≠ '\n')
    (hawait : containsSub (lit "var " ++ name ++ lit " = " ++ rhs) (lit "await") = false)
    (hc1 : containsSub (lit "var " ++ name ++ lit " = " ++ rhs) (lit "console.log") = false)
    (hc2 : containsSub (lit "var " ++ name ++ lit " = " ++ rhs) (lit "console.error") = false)
    (hc3 : containsSub (lit "var " ++ name ++ lit " = " ++ rhs) (lit "console.warn") = false)
    (hc4 : containsSub (lit "var " ++ name ++ lit " = " ++ rhs) (lit "console.assert") = false)
    (hfun : containsSub (filterNonWs (lit "var " ++ name ++ lit " = " ++ rhs))
        (lit "function") = false)
    (hparse : parseFragment (lit "var " ++ name ++ lit " = " ++ rhs)
        = some [Stmt.varDecl name e])
    (heval : evalExpr st.env e = .ok v)
    (hpp : parseFragment (lit "(" ++ (' ' :: (name ++ [' '])) ++ lit ")")
        = some [Stmt.exprStmt (Expr.ident name)]) :
    (evaluateSelection st none true (lit "var " ++ name ++ lit " = " ++ rhs)).state.env
        = setA name v st.env
    ∧ (evaluateSelection st none true (lit "var " ++ name ++ lit " = " ++ rhs)).state.commands
        = st.commands
    ∧ (evaluateSelection st none true (lit "var " ++ name ++ lit " = " ++ rhs)).thrown = none
    ∧ messageTexts (evaluateSelection st none true
        (lit "var " ++ name ++ lit " = " ++ rhs)).effects
        = [Estring v ++ lit " ~ " ++ jsTypeof v] := by
  have hfrag : lit "var " ++ name ++ lit " = " ++ rhs
      = 'v' :: 'a' :: 'r' :: ' ' :: (name ++ (' ' :: '=' :: ' ' :: rhs)) := by
    rw [show lit "var " = ['v', 'a', 'r', ' '] from rfl,
      show lit " = " = [' ', '=', ' '] from rfl]
    simp
  have hallF : ∀ x ∈ lit "var " ++ name ++ lit " = " ++ rhs, x ≠ '\n' := by
    rw [hfrag]
    intro x hx
    simp only [List.mem_cons, List.mem_append] at hx
    rcases hx with rfl | rfl | rfl | rfl | hx' | hx'
    · decide
    · decide
    · decide
    · decide
    · exact wordChar_ne (hword x hx') (by decide)
    · rcases hx' with rfl | rfl | rfl | hx4
      · decide
      · decide
      · decide
      · exact hrhsnl x hx4
  have hstarF : starMatchTail (lit "var " ++ name ++ lit " = " ++ rhs) = none := by
    rw [hfrag]
    unfold starMatchTail
    rw [dropWhile_cons_neg _ _ (by decide)]
    simp
  have hstrip : stripStars (lit "var " ++ name ++ lit " = " ++ rhs)
      = lit "var " ++ name ++ lit " = " ++ rhs := stripStars_id _ hallF hstarF
  have hcr : consoleRedirect (lit "var " ++ name ++ lit " = " ++ rhs)
      = lit "var " ++ name ++ lit " = " ++ rhs := consoleRedirect_id _ hc1 hc2 hc3 hc4
  have hecho : echoableLeftSideOf (lit "var " ++ name ++ lit " = " ++ rhs)
      = some (' ' :: (name ++ [' '])) := by
    unfold echoableLeftSideOf
    rw [matchVarLhs_shape name rhs (fun x hx => wordChar_ne (hword x hx) (by decide))]
    cases hB : matchFuncName (lit "var " ++ name ++ lit " = " ++ rhs) <;> simp [jsOrText]
  have hrw := rewriteSelection_no_await (lit "var " ++ name ++ lit " = " ++ rhs)
    (by rw [hstrip, hcr]; exact hawait)
  rw [hstrip, hcr, hecho] at hrw
  have hrecog : recognizeAsync (lit "var " ++ name ++ lit " = " ++ rhs) = none := by
    rw [hfrag]
    exact recognizeAsync_cons _ _ (by decide)
  have hjs : jsEval st.env (lit "var " ++ name ++ lit " = " ++ rhs)
      = (setA name v st.env, .ok JsVal.undef, []) := by
    unfold jsEval
    rw [hrecog, hparse]
    simp only [runStmtsGo, runStmt, List.nil_append, heval, Bool.false_eq_true, if_false]
  have hprecog : recognizeAsync (lit "(" ++ (' ' :: (name ++ [' '])) ++ lit ")") = none := by
    rw [show lit "(" ++ (' ' :: (name ++ [' '])) ++ lit ")"
        = '(' :: ' ' :: (name ++ [' ', ')']) from by
      rw [show lit "(" = ['('] from rfl, show lit ")" = [')'] from rfl]
      simp]
    exact recognizeAsync_cons2 ' ' _ (by decide)
  have hjs2 : jsEval (setA name v st.env) (lit "(" ++ (' ' :: (name ++ [' '])) ++ lit ")")
      = (setA name v st.env, .ok v, []) := by
    unfold jsEval
    rw [hprecog, hpp]
    simp only [runStmtsGo, runStmt, evalExpr, List.nil_append, lookupA_setA_self]
  have hroute : routeResult none (lit "var " ++ name ++ lit " = " ++ rhs)
      (some (' ' :: (name ++ [' ']))) JsVal.undef (setA name v st.env)
      = ([Effect.logLine (' ' :: (name ++ [' '])), echoFunction v], none) := by
    unfold routeResult
    simp only [jsTruthyOpt, Bool.false_eq_true, if_false, hawait, hjs2]
  have hharv : harvestFunctions (lit "var " ++ name ++ lit " = " ++ rhs)
      (setA name v st.env) st.commands = .ok st.commands := harvestFunctions_id _ _ _ hfun
  unfold evaluateSelection
  simp only [Bool.not_true, Bool.false_eq_true, if_false, hrw.1, hrw.2.1, hrw.2.2, hjs,
    hharv, hroute, ite_false]
  refine ⟨trivial, trivial, trivial, ?_⟩
  simp only [messageTexts, List.filterMap_append]
  have hfx := (rewrite_fx_classes (lit "var " ++ name ++ lit " = " ++ rhs)).1
  unfold messageTexts at hfx
  rw [hfx]
  simp [echoFunction]

/-- C4: evaluating a single persistent-declaration assignment
`var name = rhs` without the await marker echoes the value of the
right-hand side (re-evaluated through the left-hand-side name) tagged with
its runtime type, registers nothing, throws nothing, and leaves `name`
persistently bound in the Shared Global Environment, so that a subsequent
independent evaluation of the bare fragment `name` echoes that same
value. -/
theorem c4_var_assignment_echo_and_persist
    (st : EvalState) (name rhs : Text) (e : Expr) (v : JsVal)
    (hword : ∀ x ∈ name, isWordChar x = true) (hne : name ≠ [])
    (hrhsnl : ∀ x ∈ rhs, x ≠ '\n')
    (hawait : containsSub (lit "var " ++ name ++ lit " = " ++ rhs) (lit "await") = false)
    (hc1 : containsSub (lit "var " ++ name ++ lit " = " ++ rhs) (lit "console.log") = false)
    (hc2 : containsSub (lit "var " ++ name ++ lit " = " ++ rhs) (lit "console.error") = false)
    (hc3 : containsSub (lit "var " ++ name ++ lit " = " ++ rhs) (lit "console.warn") = false)
    (hc4 : containsSub (lit "var " ++ name ++ lit " = " ++ rhs) (lit "console.assert") = false)
    (hfun : containsSub (filterNonWs (lit "var " ++ name ++ lit " = " ++ rhs))
        (lit "function") = false)
    (hparse : parseFragment (lit "var " ++ name ++ lit " = " ++ rhs)
        = some [Stmt.varDecl name e])
    (heval : evalExpr st.env e = .ok v)
    (hpp : parseFragment (lit "(" ++ (' ' :: (name ++ [' '])) ++ lit ")")
        = some [Stmt.exprStmt (Expr.ident name)])
    (hnawait : containsSub name (lit "await") = false)
    (hnfun : containsSub name (lit "function") = false)
    (hnparse : parseFragment name = some [Stmt.exprStmt (Expr.ident name)])
    (hv1 : v ≠ JsVal.undef) (hv2 : Estring v ≠ [obc, cbc]) :
    (evaluateSelection st none true (lit "var " ++ name ++ lit " = " ++ rhs)).state.env
        = setA name v st.env
    ∧ (evaluateSelection st none true (lit "var " ++ name ++ lit " = " ++ rhs)).state.commands
        = st.commands
    ∧ (evaluateSelection st none true (lit "var " ++ name ++ lit " = " ++ rhs)).thrown = none
    ∧ messageTexts (evaluateSelection st none true
          (lit "var " ++ name ++ lit " = " ++ rhs)).effects
        = [Estring v ++ lit " ~ " ++ jsTypeof v]
    ∧ lookupA name
        (evaluateSelection st none true (lit "var " ++ name ++ lit " = " ++ rhs)).state.env
        = some v
    ∧ (evaluateSelection
        (evaluateSelection st none true (lit "var " ++ name ++ lit " = " ++ rhs)).state
        none true name).thrown = none
    ∧ messageTexts (evaluateSelection
        (evaluateSelection st none true (lit "var " ++ name ++ lit " = " ++ rhs)).state
        none true name).effects
        = [Estring v ++ lit " ~ " ++ jsTypeof v] := by
  obtain ⟨henv, hcmd, hthr, hmsg⟩ := evalSel_var_decl st name rhs e v hword hrhsnl hawait
    hc1 hc2 hc3 hc4 hfun hparse heval hpp
  have hlook : lookupA name
      (evaluateSelection st none true (lit "var " ++ name ++ lit " = " ++ rhs)).state.env
      = some v := by
    rw [henv]
    exact lookupA_setA_self name v st.env
  obtain ⟨hthr2, hmsg2, _, _⟩ := evalSel_bare_name
    (evaluateSelection st none true (lit "var " ++ name ++ lit " = " ++ rhs)).state
    name v hword hne hnawait hnfun hnparse hlook hv1 hv2
  exact ⟨henv, hcmd, hthr, hmsg, hlook, hthr2, hmsg2⟩

/-- Witness for `c4_var_assignment_echo_and_persist` at the fragment
`var x = 1 + 2`: the evaluation echoes `3 ~ number`, binds `x` to `3`, and
a later independent evaluation of `x` echoes `3 ~ number` again. -/
theorem c4_var_assignment_echo_and_persist_witness :
    (evaluateSelection initState none true (lit "var x = 1 + 2")).state.env
        = setA (lit "x") (.num 3) initState.env
    ∧ messageTexts (evaluateSelection initState none true (lit "var x = 1 + 2")).effects
        = [Estring (.num 3) ++ lit " ~ " ++ jsTypeof (.num 3)]
    ∧ lookupA (lit "x")
        (evaluateSelection initState none true (lit "var x = 1 + 2")).state.env
        = some (.num 3)
    ∧ messageTexts (evaluateSelection
        (evaluateSelection initState none true (lit "var x = 1 + 2")).state
        none true (lit "x")).effects
        = [Estring (.num 3) ++ lit " ~ " ++ jsTypeof (.num 3)] := by
  have h := c4_var_assignment_echo_and_persist initState (lit "x") (lit "1 + 2")
    (Expr.add (.num 1) (.num 2)) (.num 3)
    (by decide) (by decide) (by decide) (by decide) (by decide) (by decide) (by decide)
    (by decide) (by decide) (by rfl) (by rfl) (by rfl) (by decide) (by decide) (by rfl)
    (fun hh => JsVal.noConfusion hh) (by decide)
  have hfrag : lit "var x = 1 + 2"
      = lit "var " ++ lit "x" ++ lit " = " ++ lit "1 + 2" := by rfl
  rw [hfrag]
  exact ⟨h.1, h.2.2.2.1, h.2.2.2.2.1, h.2.2.2.2.2.2⟩

/-- C1 (amended): for a fragment `let name = rhs` without the await
marker, the rewriter does not strip the block-scoped qualifier — the text
handed to the evaluator still begins with `let` — and instead logs the
locality warning; the binding is local to the evaluation, so the Shared
Global Environment is unchanged, nothing is echoed and nothing is thrown
(only `var`, inside await-containing fragments, is ever stripped). -/
theorem c1_let_remains_local_amended
    (st : EvalState) (name rhs : Text) (e : Expr) (v : JsVal)
    (hword : ∀ x ∈ name, isWordChar x = true)
    (hrhsnl : ∀ x ∈ rhs, x ≠ '\n')
    (hawait : containsSub (lit "let " ++ name ++ lit " = " ++ rhs) (lit "await") = false)
    (hc1 : containsSub (lit "let " ++ name ++ lit " = " ++ rhs) (lit "console.log") = false)
    (hc2 : containsSub (lit "let " ++ name ++ lit " = " ++ rhs) (lit "console.error") = false)
    (hc3 : containsSub (lit "let " ++ name ++ lit " = " ++ rhs) (lit "console.warn") = false)
    (hc4 : containsSub (lit "let " ++ name ++ lit " = " ++ rhs) (lit "console.assert") = false)
    (hnofun : containsSub (lit "let " ++ name ++ lit " = " ++ rhs) (lit "function") = false)
    (hfun : containsSub (filterNonWs (lit "let " ++ name ++ lit " = " ++ rhs))
        (lit "function") = false)
    (hparse : parseFragment (lit "let " ++ name ++ lit " = " ++ rhs)
        = some [Stmt.letDecl name e])
    (heval : evalExpr st.env e = .ok v) :
    (rewriteSelection (lit "let " ++ name ++ lit " = " ++ rhs)).text
        = lit "let " ++ name ++ lit " = " ++ rhs
    ∧ Effect.logLine (lit "// Consider using “var” if you really want a global variable.\n\n")
        ∈ (rewriteSelection (lit "let " ++ name ++ lit " = " ++ rhs)).fx
    ∧ (evaluateSelection st none true (lit "let " ++ name ++ lit " = " ++ rhs)).state.env
        = st.env
    ∧ (evaluateSelection st none true
        (lit "let " ++ name ++ lit " = " ++ rhs)).state.commands = st.commands
    ∧ (evaluateSelection st none true (lit "let " ++ name ++ lit " = " ++ rhs)).thrown = none
    ∧ messageTexts (evaluateSelection st none true
        (lit "let " ++ name ++ lit " = " ++ rhs)).effects = [] := by
  have hfrag : lit "let " ++ name ++ lit " = " ++ rhs
      = 'l' :: 'e' :: 't' :: ' ' :: (name ++ (' ' :: '=' :: ' ' :: rhs)) := by
    rw [show lit "let " = ['l', 'e', 't', ' '] from rfl,
      show lit " = " = [' ', '=', ' '] from rfl]
    simp
  have hallF : ∀ x ∈ lit "let " ++ name ++ lit " = " ++ rhs, x ≠ '\n' := by
    rw [hfrag]
    intro x hx
    simp only [List.mem_cons, List.mem_append] at hx
    rcases hx with rfl | rfl | rfl | rfl | hx' | hx'
    · decide
    · decide
    · decide
    · decide
    · exact wordChar_ne (hword x hx') (by decide)
    · rcases hx' with rfl | rfl | rfl | hx4
      · decide
      · decide
      · decide
      · exact hrhsnl x hx4
  have hstarF : starMatchTail (lit "let " ++ name ++ lit " = " ++ rhs) = none := by
    rw [hfrag]
    unfold starMatchTail
    rw [dropWhile_cons_neg _ _ (by decide)]
    simp
  have hstrip : stripStars (lit "let " ++ name ++ lit " = " ++ rhs)
      = lit "let " ++ name ++ lit " = " ++ rhs := stripStars_id _ hallF hstarF
  have hcr : consoleRedirect (lit "let " ++ name ++ lit " = " ++ rhs)
      = lit "let " ++ name ++ lit " = " ++ rhs := consoleRedirect_id _ hc1 hc2 hc3 hc4
  have hecho : echoableLeftSideOf (lit "let " ++ name ++ lit " = " ++ rhs) = none := by
    unfold echoableLeftSideOf
    rw [matchVarLhs_not_var _ (by
      rw [hfrag]
      rw [dropWhile_cons_neg _ _ (by decide)]
      rw [show lit "var" = ['v', 'a', 'r'] from rfl]
      simp [startsW])]
    rw [matchFuncName_none_nofun _ hnofun]
    rfl
  have hwarn : letWarnTest (lit "let " ++ name ++ lit " = " ++ rhs) = true := by
    unfold letWarnTest
    rw [hfrag]
    rw [dropWhile_cons_neg _ _ (by decide)]
    rw [show lit "let" = ['l', 'e', 't'] from rfl]
    simp [startsW]
  have hrw := rewriteSelection_no_await (lit "let " ++ name ++ lit " = " ++ rhs)
    (by rw [hstrip, hcr]; exact hawait)
  rw [hstrip, hcr, hecho] at hrw
  have hmemwarn : Effect.logLine
      (lit "// Consider using “var” if you really want a global variable.\n\n")
      ∈ (rewriteSelection (lit "let " ++ name ++ lit " = " ++ rhs)).fx := by
    unfold rewriteSelection
    rw [hstrip, hcr]
    simp only [hawait, Bool.false_eq_true, if_false, hwarn, if_true]
    simp [letWarnLines]
  have hrecog : recognizeAsync (lit "let " ++ name ++ lit " = " ++ rhs) = none := by
    rw [hfrag]
    exact recognizeAsync_cons _ _ (by decide)
  have hjs : jsEval st.env (lit "let " ++ name ++ lit " = " ++ rhs)
      = (st.env, .ok JsVal.undef, []) := by
    unfold jsEval
    rw [hrecog, hparse]
    simp only [runStmtsGo, runStmt, List.nil_append, heval]
  have hharv : harvestFunctions (lit "let " ++ name ++ lit " = " ++ rhs)
      st.env st.commands = .ok st.commands := harvestFunctions_id _ _ _ hfun
  have hroute : routeResult none (lit "let " ++ name ++ lit " = " ++ rhs) none
      JsVal.undef st.env = ([Effect.logLine (lit "undefined")], none) := by
    unfold routeResult
    simp only [jsTruthyOpt, Bool.false_eq_true, if_false, hawait]
  refine ⟨hrw.1, hmemwarn, ?_⟩
  unfold evaluateSelection
  simp only [Bool.not_true, Bool.false_eq_true, if_false, hrw.1, hrw.2.1, hrw.2.2, hjs,
    hharv, hroute, ite_false]
  refine ⟨trivial, trivial, trivial, ?_⟩
  simp only [messageTexts, List.filterMap_append]
  have hfx := (rewrite_fx_classes (lit "let " ++ name ++ lit " = " ++ rhs)).1
  unfold messageTexts at hfx
  rw [hfx]
  simp

/-- Witness for `c1_let_remains_local_amended` at the claim's own example
`let x = 1 + 2`. -/
theorem c1_let_remains_local_amended_witness :
    (rewriteSelection (lit "let " ++ lit "x" ++ lit " = " ++ lit "1 + 2")).text
        = lit "let " ++ lit "x" ++ lit " = " ++ lit "1 + 2"
    ∧ (evaluateSelection initState none true
        (lit "let " ++ lit "x" ++ lit " = " ++ lit "1 + 2")).state.env = initState.env
    ∧ messageTexts (evaluateSelection initState none true
        (lit "let " ++ lit "x" ++ lit " = " ++ lit "1 + 2")).effects = [] := by
  have h := c1_let_remains_local_amended initState (lit "x") (lit "1 + 2")
    (Expr.add (.num 1) (.num 2)) (.num 3)
    (by decide) (by decide) (by decide) (by decide) (by decide) (by decide) (by decide)
    (by decide) (by decide) (by rfl) (by rfl)
  exact ⟨h.1, h.2.2.1, h.2.2.2.2.2⟩

/-- C2 (amended): for an await-containing fragment — whose rewritten form
is the async IIFE with the appended rejection handler — any error raised
while executing the body is caught by the handler and routed to the
error-report channel (`E.error`), with nothing echoed and no exception
escaping `evaluateSelection`; errors thrown by synchronous (non-await)
fragments, by contrast, propagate uncaught out of the evaluator. -/
theorem c2_async_rejection_routed_amended
    (st : EvalState) (raw body : Text) (echoNm : Option Text) (stmts : List Stmt)
    (err : JsErr) (l g : Env)
    (hfail : (rewriteSelection raw).failed = none)
    (hrec : recognizeAsync (rewriteSelection raw).text = some (body, echoNm))
    (hparse : parseFragment body = some stmts)
    (hrun : runStmtsGo true stmts [] st.env JsVal.undef = (l, g, .error err))
    (hharv : containsSub (filterNonWs (rewriteSelection raw).text) (lit "function") = false)
    (hawait2 : containsSub (rewriteSelection raw).text (lit "await") = true) :
    (evaluateSelection st none true raw).thrown = none
    ∧ errorTexts (evaluateSelection st none true raw).effects = [renderErr err]
    ∧ messageTexts (evaluateSelection st none true raw).effects = [] := by
  have hjs : jsEval st.env (rewriteSelection raw).text
      = (g, .ok JsVal.promise, [.errorMsg (renderErr err)]) := by
    unfold jsEval
    simp only [hrec, hparse, hrun]
  have hharv' : harvestFunctions (rewriteSelection raw).text g st.commands
      = .ok st.commands := harvestFunctions_id _ _ _ hharv
  have hroute : routeResult none (rewriteSelection raw).text
      (rewriteSelection raw).echoable JsVal.promise g
      = ([Effect.logLine (match (rewriteSelection raw).echoable with
          | some t => t
          | none => lit "undefined")], none) := by
    unfold routeResult
    simp only [jsTruthyOpt, Bool.false_eq_true, if_false, hawait2, if_true]
  unfold evaluateSelection
  simp only [Bool.not_true, Bool.false_eq_true, if_false, hfail, hjs, hharv', hroute,
    ite_false]
  refine ⟨trivial, ?_, ?_⟩
  · simp only [errorTexts, List.filterMap_append]
    have hfx := (rewrite_fx_classes raw).2.1
    unfold errorTexts at hfx
    rw [hfx]
    cases (rewriteSelection raw).echoable <;> simp
  · simp only [messageTexts, List.filterMap_append]
    have hfx := (rewrite_fx_classes raw).1
    unfold messageTexts at hfx
    rw [hfx]
    cases (rewriteSelection raw).echoable <;> simp

/-- Witness for `c2_async_rejection_routed_amended` at the fragment
`await nope`: the unbound identifier rejects the wrapped promise, the catch
handler reports `ReferenceError: nope is not defined` via `E.error`, and
the evaluator returns normally. -/
theorem c2_async_rejection_routed_amended_witness :
    (evaluateSelection initState none true (lit "await nope")).thrown = none
    ∧ errorTexts (evaluateSelection initState none true (lit "await nope")).effects
        = [renderErr (.ref (lit "nope"))]
    ∧ messageTexts (evaluateSelection initState none true (lit "await nope")).effects
        = [] := by
  have h := c2_async_rejection_routed_amended initState (lit "await nope")
    (lit "await nope") none [Stmt.exprStmt (Expr.awaitE (Expr.ident (lit "nope")))]
    (.ref (lit "nope")) [] []
    (by rfl) (by rfl) (by rfl) (by rfl) (by decide) (by decide)
  exact h

/-- A pattern is a prefix of itself followed by anything. -/
theorem startsW_append_self (p x : Text) : startsW p (p ++ x) = true := by
  induction p with
  | nil => rfl
  | cons c cs ih => simp [startsW, ih]

/-- Splitting a separator-free text yields a single segment. -/
theorem splitOnChar_no_sep (sep : Char) (a : Text) (h : ∀ x ∈ a, x ≠ sep) :
    splitOnChar sep a = [a] := by
  induction a with
  | nil => rfl
  | cons c cs ih =>
    have hc : c ≠ sep := h c (List.mem_cons_self c cs)
    simp only [splitOnChar, if_neg hc]
    rw [ih (fun x hx => h x (List.mem_cons_of_mem c hx))]

/-- Splitting past a leading separator-free block. -/
theorem splitOnChar_append_sep (sep : Char) (a b : Text) (h : ∀ x ∈ a, x ≠ sep) :
    splitOnChar sep (a ++ sep :: b) = a :: splitOnChar sep b := by
  induction a with
  | nil => simp [splitOnChar]
  | cons c cs ih =>
    have hc : c ≠ sep := h c (List.mem_cons_self c cs)
    simp only [List.cons_append, splitOnChar, if_neg hc, List.append_eq]
    rw [ih (fun x hx => h x (List.mem_cons_of_mem c hx))]

/-- The harvest scan over a single function declaration
`function name(params) \x7b body...`: exactly one match is found, its
argument segment is the parameter list and its name segment is the declared
name, so the registry gains `name` (bound to the result of evaluating it)
exactly when the parameters include `E`. -/
theorem harvestFunctions_shape (name params body : Text) (genv : Env)
    (cmds : CmdRegistry)
    (hword : ∀ x ∈ name, isWordChar x = true)
    (hpnp : ∀ x ∈ filterNonWs params, x ≠ '(')
    (hpnr : ∀ x ∈ filterNonWs params, x ≠ ')')
    (hbodyfun : containsSub (')' :: filterNonWs body) (lit "function") = false) :
    harvestFunctions (lit "function " ++ name ++ lit "(" ++ params ++ lit ") " ++ body)
        genv cmds
      = if (lit "E") ∈ splitOnChar ',' (filterNonWs params) then
          (match jsEval genv name with
           | (_, .ok v, _) => .ok (setA name v cmds)
           | (_, .error e, _) => .error e)
        else .ok cmds := by
  have hstripped : filterNonWs
      (lit "function " ++ name ++ lit "(" ++ params ++ lit ") " ++ body)
      = lit "function" ++ (name ++ ('(' :: (filterNonWs params ++ (')' :: filterNonWs body)))) := by
    simp only [filterNonWs, List.filter_append]
    rw [show (lit "function ").filter (fun c => !isWs c) = lit "function" from rfl,
      show (lit "(").filter (fun c => !isWs c) = ['('] from rfl,
      show (lit ") ").filter (fun c => !isWs c) = [')'] from rfl]
    rw [show name.filter (fun c => !isWs c) = name from by
      rw [List.filter_eq_self]
      intro a ha
      simp [wordChar_not_ws (hword a ha)]]
    simp [filterNonWs]
  have hnamene : ∀ x ∈ name, (x ≠ ')') := fun x hx => wordChar_ne (hword x hx) (by decide)
  have htake : ((name ++ ('(' :: (filterNonWs params ++ (')' :: filterNonWs body)))) :
      Text).takeWhile (fun c => c ≠ ')')
      = name ++ ('(' :: filterNonWs params) := by
    rw [takeWhile_append_all name _ (fun x hx => by simpa using hnamene x hx)]
    simp only [List.takeWhile_cons]
    rw [if_pos (by decide)]
    rw [takeWhile_append_all (filterNonWs params) _ (fun x hx => by simpa using hpnr x hx)]
    simp only [List.takeWhile_cons]
    rw [if_neg (by simp)]
    simp
  have hm : harvestMatchesF
      ((filterNonWs (lit "function " ++ name ++ lit "(" ++ params ++ lit ") " ++ body)).length + 1)
      (filterNonWs (lit "function " ++ name ++ lit "(" ++ params ++ lit ") " ++ body))
      = [lit "function" ++ (name ++ ('(' :: filterNonWs params))] := by
    rw [hstripped]
    have hlen : ∃ n : Nat, (lit "function"
        ++ (name ++ ('(' :: (filterNonWs params ++ (')' :: filterNonWs body))))).length + 1
        = n + 1 := ⟨_, rfl⟩
    obtain ⟨n, hn⟩ := hlen
    rw [hn]
    cases hcc : lit "function"
        ++ (name ++ ('(' :: (filterNonWs params ++ (')' :: filterNonWs body)))) with
    | nil => exact absurd hcc (by simp [lit])
    | cons c cs =>
      rw [← hcc]
      show harvestMatchesF (n + 1) _ = _
      have hexp : harvestMatchesF (n + 1)
          (lit "function" ++ (name ++ ('(' :: (filterNonWs params ++ (')' :: filterNonWs body)))))
          = if startsW (lit "function")
              (lit "function" ++ (name ++ ('(' :: (filterNonWs params ++ (')' :: filterNonWs body))))) = true
            then
              (lit "function" ++ ((lit "function" ++ (name ++ ('(' :: (filterNonWs params
                  ++ (')' :: filterNonWs body))))).drop 8).takeWhile (fun x => x ≠ ')'))
                :: harvestMatchesF n ((lit "function" ++ (name ++ ('(' :: (filterNonWs params
                  ++ (')' :: filterNonWs body))))).drop
                  (lit "function" ++ ((lit "function" ++ (name ++ ('(' :: (filterNonWs params
                  ++ (')' :: filterNonWs body))))).drop 8).takeWhile (fun x => x ≠ ')')).length)
            else harvestMatchesF n cs := by
        rw [hcc]
        rfl
      rw [hexp, if_pos (startsW_append_self _ _)]
      rw [show (8 : Nat) = (lit "function").length from rfl, List.drop_left, htake]
      congr 1
      have hsplit : lit "function" ++ (name ++ ('(' :: (filterNonWs params ++ (')' :: filterNonWs body))))
          = (lit "function" ++ (name ++ ('(' :: filterNonWs params))) ++ (')' :: filterNonWs body) := by
        simp
      rw [show lit "function" ++ ((name ++ ('(' :: filterNonWs params)) : Text)
          = (lit "function" ++ (name ++ ('(' :: filterNonWs params)) : Text) from rfl]
      rw [hsplit]
      rw [show (lit "function" ++ (name ++ ('(' :: filterNonWs params))).length
          = ((lit "function" ++ (name ++ ('(' :: filterNonWs params))) : Text).length from rfl]
      rw [List.drop_left]
      exact harvestMatchesF_nil n _ hbodyfun
  unfold harvestFunctions
  rw [hm]
  have hargs : (splitOnChar '(' (lit "function" ++ (name ++ ('(' :: filterNonWs params)))).get? 1
      = some (filterNonWs params) := by
    rw [show lit "function" ++ (name ++ ('(' :: filterNonWs params))
        = (lit "function" ++ name) ++ ('(' :: filterNonWs params) from by simp]
    rw [splitOnChar_append_sep '(' (lit "function" ++ name) (filterNonWs params)
      (by
        intro x hx
        rcases List.mem_append.mp hx with h | h
        · revert h
          have : ∀ y ∈ lit "function", y ≠ '(' := by decide
          exact this x
        · exact wordChar_ne (hword x h) (by decide))]
    rw [splitOnChar_no_sep '(' (filterNonWs params) hpnp]
    rfl
  have hname : ((lit "function" ++ (name ++ ('(' :: filterNonWs params))).drop 8).takeWhile
      (fun c => c ≠ '(') = name := by
    rw [show (8 : Nat) = (lit "function").length from rfl, List.drop_left]
    rw [takeWhile_append_all name _
      (fun x hx => by simpa using wordChar_ne (hword x hx) (by decide : isWordChar '(' = false))]
    simp [List.takeWhile_cons]
  simp only [List.foldlM_cons, List.foldlM_nil, harvestStep, hargs, hname]
  by_cases hE : (lit "E") ∈ splitOnChar ',' (filterNonWs params)
  · cases hjs : jsEval genv name with
    | mk g' rest =>
      obtain ⟨res, fx⟩ := rest
      cases res <;>
        simp [Option.map, hE, Bind.bind, Except.bind, pure, Except.pure]
  · simp [Option.map, hE, Bind.bind, Except.bind, pure, Except.pure]

/-- One-step characterisation of `evaluateSelection` on the successful
path: given the rewrite stage did not fail, the evaluation succeeded, and
the harvest succeeded, the outcome is assembled from those pieces. -/
theorem evaluateSelection_ok_spec (st : EvalState) (pa : Option JsVal) (raw T : Text)
    (echo : Option Text) (g' : Env) (v : JsVal) (evalFx : List Effect)
    (cmds' : CmdRegistry) (rfx : List Effect) (thr : Option JsErr)
    (h1t : (rewriteSelection raw).text = T)
    (h1e : (rewriteSelection raw).echoable = echo)
    (h1f : (rewriteSelection raw).failed = none)
    (h2 : jsEval st.env T = (g', .ok v, evalFx))
    (h3 : harvestFunctions T g' st.commands = .ok cmds')
    (h4 : routeResult pa T echo v g' = (rfx, thr)) :
    (evaluateSelection st pa true raw).state.env = g'
    ∧ (evaluateSelection st pa true raw).state.commands = cmds'
    ∧ (evaluateSelection st pa true raw).thrown = thr
    ∧ (evaluateSelection st pa true raw).effects
        = (rewriteSelection raw).fx ++ evalFx
            ++ [.logLine bannerOut, .logLine (Estring v)] ++ rfx := by
  unfold evaluateSelection
  simp only [Bool.not_true, Bool.false_eq_true, if_false, h1f, h1t, h1e, h2, h3, h4]
  refine ⟨?_, ?_, ?_, ?_⟩ <;> trivial

/-- Evaluating a named function declaration
`function name(params) \x7b body...`: the function value becomes
persistently bound in the Shared Global Environment, it is inserted into
the Command Registry exactly when the parameter list includes `E`, and in
either case the function value (its source, tagged `function`) is echoed
through the echoable-left-hand-side path. -/
theorem evalSel_function_decl (st : EvalState) (name params body : Text) (fv : FuncVal)
    (hword : ∀ x ∈ name, isWordChar x = true) (hne : name ≠ [])
    (hpnl : ∀ x ∈ params, x ≠ '\n') (hbnl : ∀ x ∈ body, x ≠ '\n')
    (hawait : containsSub (lit "function " ++ name ++ lit "(" ++ params ++ lit ") " ++ body)
        (lit "await") = false)
    (hc1 : containsSub (lit "function " ++ name ++ lit "(" ++ params ++ lit ") " ++ body)
        (lit "console.log") = false)
    (hc2 : containsSub (lit "function " ++ name ++ lit "(" ++ params ++ lit ") " ++ body)
        (lit "console.error") = false)
    (hc3 : containsSub (lit "function " ++ name ++ lit "(" ++ params ++ lit ") " ++ body)
        (lit "console.warn") = false)
    (hc4 : containsSub (lit "function " ++ name ++ lit "(" ++ params ++ lit ") " ++ body)
        (lit "console.assert") = false)
    (hpnp : ∀ x ∈ filterNonWs params, x ≠ '(')
    (hpnr : ∀ x ∈ filterNonWs params, x ≠ ')')
    (hbodyfun : containsSub (')' :: filterNonWs body) (lit "function") = false)
    (hparse : parseFragment (lit "function " ++ name ++ lit "(" ++ params ++ lit ") " ++ body)
        = some [Stmt.funcDecl fv])
    (hfname : fv.fname = name)
    (hnparse : parseFragment name = some [Stmt.exprStmt (Expr.ident name)])
    (hprecog : recognizeAsync (lit "(" ++ name ++ lit ")") = none)
    (hpp : parseFragment (lit "(" ++ name ++ lit ")")
        = some [Stmt.exprStmt (Expr.ident name)]) :
    (evaluateSelection st none true
        (lit "function " ++ name ++ lit "(" ++ params ++ lit ") " ++ body)).state.env
        = setA name (.func fv) st.env
    ∧ (evaluateSelection st none true
        (lit "function " ++ name ++ lit "(" ++ params ++ lit ") " ++ body)).state.commands
        = (if (lit "E") ∈ splitOnChar ',' (filterNonWs params)
           then setA name (.func fv) st.commands else st.commands)
    ∧ (evaluateSelection st none true
        (lit "function " ++ name ++ lit "(" ++ params ++ lit ") " ++ body)).thrown = none
    ∧ messageTexts (evaluateSelection st none true
        (lit "function " ++ name ++ lit "(" ++ params ++ lit ") " ++ body)).effects
        = [fv.src ++ lit " ~ function"] := by
  obtain ⟨n0, ntail, hn0⟩ := List.exists_cons_of_ne_nil hne
  have hw0 : isWordChar n0 = true := hword n0 (by rw [hn0]; exact List.mem_cons_self n0 ntail)
  have hfrag : lit "function " ++ name ++ lit "(" ++ params ++ lit ") " ++ body
      = 'f' :: 'u' :: 'n' :: 'c' :: 't' :: 'i' :: 'o' :: 'n' :: ' '
        :: (name ++ ('(' :: (params ++ (')' :: ' ' :: body)))) := by
    rw [show lit "function " = ['f', 'u', 'n', 'c', 't', 'i', 'o', 'n', ' '] from rfl,
      show lit "(" = ['('] from rfl, show lit ") " = [')', ' '] from rfl]
    simp
  have hallF : ∀ x ∈ lit "function " ++ name ++ lit "(" ++ params ++ lit ") " ++ body,
      x ≠ '\n' := by
    rw [hfrag]
    intro x hx
    simp only [List.mem_cons, List.mem_append] at hx
    rcases hx with rfl | rfl | rfl | rfl | rfl | rfl | rfl | rfl | rfl | hx'
    · decide
    · decide
    · decide
    · decide
    · decide
    · decide
    · decide
    · decide
    · decide
    · rcases hx' with h | rfl | h | rfl | rfl | h
      · exact wordChar_ne (hword x h) (by decide)
      · decide
      · exact hpnl x h
      · decide
      · decide
      · exact hbnl x h
  have hstarF : starMatchTail
      (lit "function " ++ name ++ lit "(" ++ params ++ lit ") " ++ body) = none := by
    rw [hfrag]
    unfold starMatchTail
    rw [dropWhile_cons_neg _ _ (by decide)]
    simp
  have hstrip := stripStars_id _ hallF hstarF
  have hcr := consoleRedirect_id _ hc1 hc2 hc3 hc4
  have hecho : echoableLeftSideOf
      (lit "function " ++ name ++ lit "(" ++ params ++ lit ") " ++ body) = some name := by
    unfold echoableLeftSideOf
    rw [matchVarLhs_not_var _ (by
      rw [hfrag]
      rw [dropWhile_cons_neg _ _ (by decide)]
      rw [show lit "var" = ['v', 'a', 'r'] from rfl]
      simp [startsW])]
    rw [matchFuncName_shape name params body hword hne]
    simp [jsOrText, hne]
  have hrw := rewriteSelection_no_await
    (lit "function " ++ name ++ lit "(" ++ params ++ lit ") " ++ body)
    (by rw [hstrip, hcr]; exact hawait)
  rw [hstrip, hcr, hecho] at hrw
  have hrecog : recognizeAsync
      (lit "function " ++ name ++ lit "(" ++ params ++ lit ") " ++ body) = none := by
    rw [hfrag]
    exact recognizeAsync_cons _ _ (by decide)
  have hjs : jsEval st.env (lit "function " ++ name ++ lit "(" ++ params ++ lit ") " ++ body)
      = (setA name (.func fv) st.env, .ok JsVal.undef, []) := by
    unfold jsEval
    rw [hrecog, hparse]
    simp only [runStmtsGo, runStmt, Bool.false_eq_true, if_false, hfname]
  have hjsname : jsEval (setA name (.func fv) st.env) name
      = (setA name (.func fv) st.env, .ok (.func fv), []) := by
    unfold jsEval
    rw [hn0]
    rw [recognizeAsync_cons n0 ntail (wordChar_ne hw0 (by decide : isWordChar '(' = false))]
    rw [← hn0, hnparse]
    simp only [runStmtsGo, runStmt, evalExpr, List.nil_append, lookupA_setA_self]
  have hjsparen : jsEval (setA name (.func fv) st.env) (lit "(" ++ name ++ lit ")")
      = (setA name (.func fv) st.env, .ok (.func fv), []) := by
    unfold jsEval
    rw [hprecog, hpp]
    simp only [runStmtsGo, runStmt, evalExpr, List.nil_append, lookupA_setA_self]
  have hroute : routeResult none
      (lit "function " ++ name ++ lit "(" ++ params ++ lit ") " ++ body)
      (some name) JsVal.undef (setA name (.func fv) st.env)
      = ([Effect.logLine name, echoFunction (.func fv)], none) := by
    unfold routeResult
    simp only [jsTruthyOpt, Bool.false_eq_true, if_false, hawait, hjsparen]
  have hharv := harvestFunctions_shape name params body (setA name (.func fv) st.env)
    st.commands hword hpnp hpnr hbodyfun
  rw [hjsname] at hharv
  by_cases hE : (lit "E") ∈ splitOnChar ',' (filterNonWs params)
  · have hharv2 : harvestFunctions
        (lit "function " ++ name ++ lit "(" ++ params ++ lit ") " ++ body)
        (setA name (.func fv) st.env) st.commands
        = .ok (setA name (.func fv) st.commands) := by
      rw [hharv, if_pos hE]
    obtain ⟨he1, he2, he3, he4⟩ := evaluateSelection_ok_spec st none
      (lit "function " ++ name ++ lit "(" ++ params ++ lit ") " ++ body)
      (lit "function " ++ name ++ lit "(" ++ params ++ lit ") " ++ body)
      (some name) (setA name (.func fv) st.env) JsVal.undef []
      (setA name (.func fv) st.commands)
      [Effect.logLine name, echoFunction (.func fv)] none
      hrw.1 hrw.2.1 hrw.2.2 hjs hharv2 hroute
    rw [if_pos hE]
    refine ⟨he1, he2, he3, ?_⟩
    rw [he4]
    simp only [messageTexts, List.filterMap_append]
    have hfx := (rewrite_fx_classes
      (lit "function " ++ name ++ lit "(" ++ params ++ lit ") " ++ body)).1
    unfold messageTexts at hfx
    rw [hfx]
    simp [echoFunction, Estring, jsTypeof]
    rfl
  · have hharv2 : harvestFunctions
        (lit "function " ++ name ++ lit "(" ++ params ++ lit ") " ++ body)
        (setA name (.func fv) st.env) st.commands
        = .ok st.commands := by
      rw [hharv, if_neg hE]
    obtain ⟨he1, he2, he3, he4⟩ := evaluateSelection_ok_spec st none
      (lit "function " ++ name ++ lit "(" ++ params ++ lit ") " ++ body)
      (lit "function " ++ name ++ lit "(" ++ params ++ lit ") " ++ body)
      (some name) (setA name (.func fv) st.env) JsVal.undef [] st.commands
      [Effect.logLine name, echoFunction (.func fv)] none
      hrw.1 hrw.2.1 hrw.2.2 hjs hharv2 hroute
    rw [if_neg hE]
    refine ⟨he1, he2, he3, ?_⟩
    rw [he4]
    simp only [messageTexts, List.filterMap_append]
    have hfx := (rewrite_fx_classes
      (lit "function " ++ name ++ lit "(" ++ params ++ lit ") " ++ body)).1
    unfold messageTexts at hfx
    rw [hfx]
    simp [echoFunction, Estring, jsTypeof]
    rfl

/-- C6 (amended): for a fragment that is a named function declaration, the
function becomes persistently available in the Shared Global Environment in
every case; it is additionally inserted into the Command Registry under its
declared name exactly when the parameter list includes the
Capability-Surface parameter name `E`; and — contrary to the original
claim's early-return-without-echo for `E`-free declarations — in both cases
the evaluator echoes, and what it echoes is the function's source text
(its `E.string` rendering) tagged `function`, not the bare name. -/
theorem c6_function_declaration_amended (st : EvalState) (name params body : Text)
    (fv : FuncVal)
    (hword : ∀ x ∈ name, isWordChar x = true) (hne : name ≠ [])
    (hpnl : ∀ x ∈ params, x ≠ '\n') (hbnl : ∀ x ∈ body, x ≠ '\n')
    (hawait : containsSub (lit "function " ++ name ++ lit "(" ++ params ++ lit ") " ++ body)
        (lit "await") = false)
    (hc1 : containsSub (lit "function " ++ name ++ lit "(" ++ params ++ lit ") " ++ body)
        (lit "console.log") = false)
    (hc2 : containsSub (lit "function " ++ name ++ lit "(" ++ params ++ lit ") " ++ body)
        (lit "console.error") = false)
    (hc3 : containsSub (lit "function " ++ name ++ lit "(" ++ params ++ lit ") " ++ body)
        (lit "console.warn") = false)
    (hc4 : containsSub (lit "function " ++ name ++ lit "(" ++ params ++ lit ") " ++ body)
        (lit "console.assert") = false)
    (hpnp : ∀ x ∈ filterNonWs params, x ≠ '(')
    (hpnr : ∀ x ∈ filterNonWs params, x ≠ ')')
    (hbodyfun : containsSub (')' :: filterNonWs body) (lit "function") = false)
    (hparse : parseFragment (lit "function " ++ name ++ lit "(" ++ params ++ lit ") " ++ body)
        = some [Stmt.funcDecl fv])
    (hfname : fv.fname = name)
    (hnparse : parseFragment name = some [Stmt.exprStmt (Expr.ident name)])
    (hprecog : recognizeAsync (lit "(" ++ name ++ lit ")") = none)
    (hpp : parseFragment (lit "(" ++ name ++ lit ")")
        = some [Stmt.exprStmt (Expr.ident name)]) :
    (evaluateSelection st none true
        (lit "function " ++ name ++ lit "(" ++ params ++ lit ") " ++ body)).state.env
        = setA name (.func fv) st.env
    ∧ (evaluateSelection st none true
        (lit "function " ++ name ++ lit "(" ++ params ++ lit ") " ++ body)).state.commands
        = (if (lit "E") ∈ splitOnChar ',' (filterNonWs params)
           then setA name (.func fv) st.commands else st.commands)
    ∧ (evaluateSelection st none true
        (lit "function " ++ name ++ lit "(" ++ params ++ lit ") " ++ body)).thrown = none
    ∧ messageTexts (evaluateSelection st none true
        (lit "function " ++ name ++ lit "(" ++ params ++ lit ") " ++ body)).effects
        = [fv.src ++ lit " ~ function"] :=
  evalSel_function_decl st name params body fv hword hne hpnl hbnl hawait hc1 hc2 hc3 hc4
    hpnp hpnr hbodyfun hparse hfname hnparse hprecog hpp

/-- Witness for the amended C6 at the `E`-free declaration
`function hi(x) \x7b 0 \x7d`: the function persists, is not registered,
and its source is echoed tagged `function`. -/
theorem c6_function_declaration_amended_witness :
    (evaluateSelection initState none true
        (lit "function " ++ lit "hi" ++ lit "(" ++ lit "x" ++ lit ") "
          ++ ([obc] ++ lit " 0 " ++ [cbc]))).state.env
        = setA (lit "hi")
            (.func ⟨lit "hi", [lit "x"], lit " 0 ",
              lit "function hi(x) " ++ [obc] ++ lit " 0 " ++ [cbc]⟩) initState.env
    ∧ (evaluateSelection initState none true
        (lit "function " ++ lit "hi" ++ lit "(" ++ lit "x" ++ lit ") "
          ++ ([obc] ++ lit " 0 " ++ [cbc]))).state.commands
        = (if (lit "E") ∈ splitOnChar ',' (filterNonWs (lit "x"))
           then setA (lit "hi")
              (.func ⟨lit "hi", [lit "x"], lit " 0 ",
                lit "function hi(x) " ++ [obc] ++ lit " 0 " ++ [cbc]⟩) initState.commands
           else initState.commands)
    ∧ (evaluateSelection initState none true
        (lit "function " ++ lit "hi" ++ lit "(" ++ lit "x" ++ lit ") "
          ++ ([obc] ++ lit " 0 " ++ [cbc]))).thrown = none
    ∧ messageTexts (evaluateSelection initState none true
        (lit "function " ++ lit "hi" ++ lit "(" ++ lit "x" ++ lit ") "
          ++ ([obc] ++ lit " 0 " ++ [cbc]))).effects
        = [(lit "function hi(x) " ++ [obc] ++ lit " 0 " ++ [cbc]) ++ lit " ~ function"] :=
  c6_function_declaration_amended initState (lit "hi") (lit "x")
    ([obc] ++ lit " 0 " ++ [cbc])
    ⟨lit "hi", [lit "x"], lit " 0 ", lit "function hi(x) " ++ [obc] ++ lit " 0 " ++ [cbc]⟩
    (by decide) (by decide) (by decide) (by decide) (by decide) (by decide) (by decide)
    (by decide) (by decide) (by decide) (by decide) (by decide) rfl rfl rfl rfl rfl

/-- The key just written by `setA` is among the association list's keys. -/
theorem mem_keys_setA (x : Text) (v : JsVal) (l : List (Text × JsVal)) :
    x ∈ (setA x v l).map Prod.fst := by
  induction l with
  | nil =>
    rw [show setA x v [] = [(x, v)] from rfl, List.map_cons]
    exact List.mem_cons_self _ _
  | cons p rest ih =>
    obtain ⟨y, w⟩ := p
    by_cases h : y = x
    · subst h
      rw [show setA y v ((y, w) :: rest) = (y, v) :: rest from by simp [setA]]
      rw [List.map_cons]
      exact List.mem_cons_self _ _
    · rw [show setA x v ((y, w) :: rest) = (y, w) :: setA x v rest from by simp [setA, h]]
      rw [List.map_cons]
      exact List.mem_cons_of_mem _ ih

/-- Dispatching a registered name invokes its handler with the argument
list `(E, vscode)` — the Capability Surface first — and, for a handler that
does not throw, completes without a thrown error. -/
theorem executeRegisteredCommand_invoke (st : EvalState) (pa : Option JsVal) (name : Text)
    (h : JsVal) (hlook : lookupA name st.commands = some h) :
    Effect.invoke name h [CallArg.esurface, CallArg.vscodeApi] pa
      ∈ (executeRegisteredCommand st pa (some name) false).effects
    ∧ (executeRegisteredCommand st pa (some name) false).thrown = none := by
  unfold executeRegisteredCommand
  simp only [hlook]
  constructor
  · simp
  · rfl

/-- C5: round-trip through the registry — evaluating a named function
declaration whose parameter list includes the Capability-Surface parameter
name `E` makes the declared name appear among the Command Registry's keys,
and a subsequent dispatch of that name invokes the registered handler
(the declared function) with the Capability Surface as its first argument
and completes without error. -/
theorem c5_function_registry_roundtrip (st : EvalState) (pa : Option JsVal)
    (name params body : Text) (fv : FuncVal)
    (hword : ∀ x ∈ name, isWordChar x = true) (hne : name ≠ [])
    (hpnl : ∀ x ∈ params, x ≠ '\n') (hbnl : ∀ x ∈ body, x ≠ '\n')
    (hawait : containsSub (lit "function " ++ name ++ lit "(" ++ params ++ lit ") " ++ body)
        (lit "await") = false)
    (hc1 : containsSub (lit "function " ++ name ++ lit "(" ++ params ++ lit ") " ++ body)
        (lit "console.log") = false)
    (hc2 : containsSub (lit "function " ++ name ++ lit "(" ++ params ++ lit ") " ++ body)
        (lit "console.error") = false)
    (hc3 : containsSub (lit "function " ++ name ++ lit "(" ++ params ++ lit ") " ++ body)
        (lit "console.warn") = false)
    (hc4 : containsSub (lit "function " ++ name ++ lit "(" ++ params ++ lit ") " ++ body)
        (lit "console.assert") = false)
    (hpnp : ∀ x ∈ filterNonWs params, x ≠ '(')
    (hpnr : ∀ x ∈ filterNonWs params, x ≠ ')')
    (hbodyfun : containsSub (')' :: filterNonWs body) (lit "function") = false)
    (hparse : parseFragment (lit "function " ++ name ++ lit "(" ++ params ++ lit ") " ++ body)
        = some [Stmt.funcDecl fv])
    (hfname : fv.fname = name)
    (hnparse : parseFragment name = some [Stmt.exprStmt (Expr.ident name)])
    (hprecog : recognizeAsync (lit "(" ++ name ++ lit ")") = none)
    (hpp : parseFragment (lit "(" ++ name ++ lit ")")
        = some [Stmt.exprStmt (Expr.ident name)])
    (hE : (lit "E") ∈ splitOnChar ',' (filterNonWs params)) :
    name ∈ ((evaluateSelection st none true
        (lit "function " ++ name ++ lit "(" ++ params ++ lit ") " ++ body)).state.commands).map
        Prod.fst
    ∧ Effect.invoke name (JsVal.func fv) [CallArg.esurface, CallArg.vscodeApi] pa
        ∈ (executeRegisteredCommand (evaluateSelection st none true
            (lit "function " ++ name ++ lit "(" ++ params ++ lit ") " ++ body)).state pa
            (some name) false).effects
    ∧ (executeRegisteredCommand (evaluateSelection st none true
        (lit "function " ++ name ++ lit "(" ++ params ++ lit ") " ++ body)).state pa
        (some name) false).thrown = none := by
  obtain ⟨henv, hcmd, hthr, hmsg⟩ := evalSel_function_decl st name params body fv hword hne
    hpnl hbnl hawait hc1 hc2 hc3 hc4 hpnp hpnr hbodyfun hparse hfname hnparse hprecog hpp
  rw [if_pos hE] at hcmd
  have hlook : lookupA name (evaluateSelection st none true
      (lit "function " ++ name ++ lit "(" ++ params ++ lit ") " ++ body)).state.commands
      = some (JsVal.func fv) := by
    rw [hcmd]
    exact lookupA_setA_self name (JsVal.func fv) st.commands
  have hdisp := executeRegisteredCommand_invoke
    (evaluateSelection st none true
      (lit "function " ++ name ++ lit "(" ++ params ++ lit ") " ++ body)).state
    pa name (JsVal.func fv) hlook
  refine ⟨?_, hdisp.1, hdisp.2⟩
  rw [hcmd]
  exact mem_keys_setA name (JsVal.func fv) st.commands

/-- Witness for C5 at the concrete declaration
`function greet(E) \x7b 0 \x7d` dispatched with no prefix modifier:
`greet` is registered and its dispatch invokes the declared function with
`(E, vscode)`. -/
theorem c5_function_registry_roundtrip_witness :
    lit "greet" ∈ ((evaluateSelection initState none true
        (lit "function " ++ lit "greet" ++ lit "(" ++ lit "E" ++ lit ") "
          ++ ([obc] ++ lit " 0 " ++ [cbc]))).state.commands).map Prod.fst
    ∧ Effect.invoke (lit "greet")
        (JsVal.func ⟨lit "greet", [lit "E"], lit " 0 ",
          lit "function greet(E) " ++ [obc] ++ lit " 0 " ++ [cbc]⟩)
        [CallArg.esurface, CallArg.vscodeApi] none
        ∈ (executeRegisteredCommand (evaluateSelection initState none true
            (lit "function " ++ lit "greet" ++ lit "(" ++ lit "E" ++ lit ") "
              ++ ([obc] ++ lit " 0 " ++ [cbc]))).state none
            (some (lit "greet")) false).effects
    ∧ (executeRegisteredCommand (evaluateSelection initState none true
        (lit "function " ++ lit "greet" ++ lit "(" ++ lit "E" ++ lit ") "
          ++ ([obc] ++ lit " 0 " ++ [cbc]))).state none
        (some (lit "greet")) false).thrown = none :=
  c5_function_registry_roundtrip initState none (lit "greet") (lit "E")
    ([obc] ++ lit " 0 " ++ [cbc])
    ⟨lit "greet", [lit "E"], lit " 0 ",
      lit "function greet(E) " ++ [obc] ++ lit " 0 " ++ [cbc]⟩
    (by decide) (by decide) (by decide) (by decide) (by decide) (by decide) (by decide)
    (by decide) (by decide) (by decide) (by decide) (by decide) rfl rfl rfl rfl rfl
    (by decide)
